import Mathlib

namespace PylonSpec

/-!
Shallow embedding of the pylontech-bms-mqtt telemetry bridges:
the RS485 Pylontech frame codec (`make_command`, `decode_response`,
`decode_analog_response`, `decode_alarm_response`), the two MQTT
`Publisher.publish` rate-limit/hysteresis gates (CAN bridge and RS485
monitor), the CAN 0x351 limit-frame handler, the Modbus register decoder
of the archived Deye prototype, and the `soc` derivation of
`read_all_batteries`.  Strings on the wire are modelled as `List Char`;
Python floats are modelled as exact rationals `ℚ`; machine-width
wraparound is written out as arithmetic mod 2^w.
-/

/-! ### Hex character machinery

`hexDigitVal?` models Python `int(c, 16)` on a single character
(`'0'..'9'`, `'a'..'f'`, `'A'..'F'`, by ASCII code).  `natToHex n w`
models the format string `f"{n:0{w}X}"`: uppercase hex, zero-padded on
the left to at least `w` characters.  `parseHexStr?` models
`int(s, 16)` on a string of hex digits (no sign, no whitespace): it
fails on the empty string and on any non-hex character. -/

def hexDigitVal? (c : Char) : Option ℕ :=
  if 48 ≤ c.toNat ∧ c.toNat ≤ 57 then some (c.toNat - 48)
  else if 97 ≤ c.toNat ∧ c.toNat ≤ 102 then some (c.toNat - 97 + 10)
  else if 65 ≤ c.toNat ∧ c.toNat ≤ 70 then some (c.toNat - 65 + 10)
  else none

def isHexChar (c : Char) : Bool := (hexDigitVal? c).isSome

/-- One uppercase hex digit, as produced by Python `"%X"` formatting. -/
def hexDigitChar (d : ℕ) : Char :=
  if d < 10 then Char.ofNat (48 + d) else Char.ofNat (55 + d)

/-- Helper for `hexDigits`, structurally recursive on a fuel argument so
that the kernel can evaluate it (`n + 1` fuel always suffices). -/
def hexDigitsAux : ℕ → ℕ → List Char
  | 0, _ => []
  | fuel + 1, n =>
    if n < 16 then [hexDigitChar n]
    else hexDigitsAux fuel (n / 16) ++ [hexDigitChar (n % 16)]

/-- The uppercase hex digits of `n`, most significant first (`"%X"`). -/
def hexDigits (n : ℕ) : List Char := hexDigitsAux (n + 1) n

/-- Python `f"{n:0{w}X}"`: zero-pad `hexDigits n` on the left to width `w`. -/
def natToHex (n w : ℕ) : List Char :=
  List.replicate (w - (hexDigits n).length) '0' ++ hexDigits n

def parseHexAux : List Char → ℕ → Option ℕ
  | [], acc => some acc
  | c :: cs, acc =>
    match hexDigitVal? c with
    | none => none
    | some d => parseHexAux cs (16 * acc + d)

/-- Python `int(s, 16)` restricted to plain hex-digit strings. -/
def parseHexStr? (l : List Char) : Option ℕ :=
  if l.isEmpty then none else parseHexAux l 0

/-- Python slice `s[i:j]` (for `0 ≤ i ≤ j`): clamps at both ends. -/
def slice (l : List Char) (i j : ℕ) : List Char :=
  (l.drop i).take (j - i)

/-- Sum of the ASCII codes of a string (`sum(ord(c) for c in s)`). -/
def charSum (l : List Char) : ℕ := (l.map Char.toNat).sum

/-- Sum of the hex values of the characters of a hex string
(`sum(int(c, 16) for c in s)`); non-hex characters count as 0, which
never happens at the call sites (the inputs are `"%X"`-formatted). -/
def hexCharSum (l : List Char) : ℕ :=
  (l.map (fun c => (hexDigitVal? c).getD 0)).sum

/-- Python `(~total + 1) & (m - 1)` for `m` a power of two, i.e. the
two's-complement negation `(-total) mod m`. -/
def pyNegAnd (total m : ℕ) : ℕ := ((-(total : ℤ)) % (m : ℤ)).toNat

/-! ### RS485 Pylontech frame codec

Model of `pylon_rs485_monitor.py` / `rs485_simple.py`:
`calc_chksum` (frame checksum over the ASCII bytes of the frame body),
the LENID construction inside `make_command` (3-hex-digit length with a
nibble checksum prepended), `calc_lchksum` from `rs485_simple.py`
(which formats the length on 4 hex digits), `make_command`, and
`decode_response` (fixed-offset field extraction after stripping the
leading `~` and trailing `\r`). -/

/-- `calc_chksum` of `pylon_rs485_monitor.py` / `rs485_simple.py` as a
number: `(~sum(ord(c)) + 1) & 0xFFFF`. -/
def calc_chksum_val (frame_content : List Char) : ℕ :=
  pyNegAnd (charSum frame_content) 65536

/-- `calc_chksum`: the 16-bit frame checksum rendered as `f"{x:04X}"`. -/
def calc_chksum (frame_content : List Char) : List Char :=
  natToHex (calc_chksum_val frame_content) 4

/-- The LCHKSUM nibble computed inside `make_command`:
`(~sum(int(c, 16) for c in f"{length:03X}") + 1) & 0xF`. -/
def lchksum_val (length : ℕ) : ℕ :=
  pyNegAnd (hexCharSum (natToHex length 3)) 16

/-- `calc_lchksum` of `rs485_simple.py`: same nibble checksum but summed
over the 4-hex-digit rendering `f"{length:04X}"`. -/
def calc_lchksum (length : ℕ) : ℕ :=
  pyNegAnd (hexCharSum (natToHex length 4)) 16

/-- LENID as built by `make_command`: `f"{lchksum:X}{len(info):03X}"`. -/
def lenid (length : ℕ) : List Char :=
  natToHex (lchksum_val length) 1 ++ natToHex length 3

/-- The frame body of `make_command`:
`f"{ver}{adr}{cid1}{cid2_hex}{lenid}{info}"` with `ver="20"`, `cid1="46"`. -/
def frame_content (addr cid2 : ℕ) (info : List Char) : List Char :=
  ['2', '0'] ++ natToHex addr 2 ++ ['4', '6'] ++ natToHex cid2 2 ++
    lenid info.length ++ info

/-- `make_command`: `f"~{frame}{calc_chksum(frame)}\r"`. -/
def make_command (addr cid2 : ℕ) (info : List Char) : List Char :=
  '~' :: (frame_content addr cid2 info ++
    calc_chksum (frame_content addr cid2 info) ++ ['\r'])

/-- The ASCII whitespace characters removed by Python `str.strip()`
(space, tab, newline, carriage return, vertical tab, form feed). -/
def isPySpace (c : Char) : Bool :=
  c.toNat = 32 ∨ c.toNat = 9 ∨ c.toNat = 10 ∨ c.toNat = 13 ∨
    c.toNat = 11 ∨ c.toNat = 12

/-- Python `s.strip()` (ASCII whitespace only; the frames are ASCII). -/
def pyStrip (l : List Char) : List Char :=
  ((l.dropWhile isPySpace).reverse.dropWhile isPySpace).reverse

/-- Python `s.lstrip(ch)` for a single strip character. -/
def pyLstrip (ch : Char) (l : List Char) : List Char :=
  l.dropWhile (fun c => c = ch)

/-- Python `s.rstrip(ch)` for a single strip character. -/
def pyRstrip (ch : Char) (l : List Char) : List Char :=
  (l.reverse.dropWhile (fun c => c = ch)).reverse

/-- The fields extracted by `decode_response` in `rs485_simple.py`
(`raw`, `ascii` and `rtn_meaning` are presentation-only and omitted).
`addr` is parsed (`int(text[2:4], 16)`); the other fields are kept as
raw character slices, as in the source. -/
structure Resp where
  ver : List Char
  addr : ℕ
  cid1 : List Char
  rtn : List Char
  length : List Char
  info : List Char
  checksum : List Char
deriving DecidableEq, Repr

/-- `decode_response` of `rs485_simple.py`: strip whitespace, the
leading `~` and trailing `\r`, then slice at fixed offsets.  The only
failure path (Python exception, caught and turned into an error dict)
is `int(text[2:4], 16)` failing. -/
def decode_response (data : List Char) : Option Resp :=
  let text := pyRstrip '\r' (pyLstrip '~' (pyStrip data))
  match parseHexStr? (slice text 2 4) with
  | none => none
  | some addr =>
    some { ver := slice text 0 2
           addr := addr
           cid1 := slice text 4 6
           rtn := slice text 6 8
           length := slice text 8 12
           info := if 16 < text.length then slice text 12 (text.length - 4) else []
           checksum := if 4 ≤ text.length then text.drop (text.length - 4) else [] }

/-! ### MQTT Publisher gates

Model of `Publisher.publish` in `pylon_can2mqtt.py` (CAN bridge) and in
`pylon_rs485_monitor.py` (RS485 monitor).  Values are numeric (Python
float/int, modelled as `ℚ`) or strings.  `brokerOk` models whether the
underlying `client.publish` call raises (`False` = it raises; the source
catches every exception).  Wall-clock times are `ℚ`. -/

inductive PyVal where
  | num (q : ℚ)
  | str (s : String)
deriving DecidableEq, Repr

/-- Decimal value of a digit string (used by the `float()` model). -/
def digitsVal (l : List Char) : ℕ :=
  l.foldl (fun acc c => 10 * acc + (c.toNat - 48)) 0

/-- Python `float()` restricted to plain decimal literals: optional
sign, integer digits, optional single `'.'` and fraction digits, at
least one digit overall; no exponent, `inf`, `nan`, underscores or
surrounding whitespace (the bridges never publish such payloads). -/
def pyFloat? (s : String) : Option ℚ :=
  let body : ℤ × List Char :=
    match s.data with
    | '-' :: t => (-1, t)
    | '+' :: t => (1, t)
    | cs => (1, cs)
  let sg := body.1
  let rest := body.2
  let ip := rest.takeWhile Char.isDigit
  let r1 := rest.dropWhile Char.isDigit
  match r1 with
  | [] => if ip.isEmpty then none else some ((sg : ℚ) * (digitsVal ip : ℚ))
  | '.' :: r2 =>
    let fp := r2.takeWhile Char.isDigit
    let r3 := r2.dropWhile Char.isDigit
    if r3.isEmpty then
      if ip.isEmpty ∧ fp.isEmpty then none
      else some ((sg : ℚ) * ((digitsVal ip : ℚ) + (digitsVal fp : ℚ) / 10 ^ fp.length))
    else none
  | _ => none

/-- Python `str(value)`.  For numerics the exact float repr is never
inspected by the publishers (only stored canonical values are compared),
so `toString` on the rational stands in for it. -/
def pyStr : PyVal → String
  | .num q => toString q
  | .str s => s

/-- The per-topic cache of a `Publisher`: `self.last_value` and
`self.last_ts` dicts (`none` = key absent). -/
structure PubState where
  last_value : String → Option PyVal
  last_ts : String → Option ℚ

/-- Outcome of one `publish` call: the boolean return value, the cache
state after the call, and the broker publish that was attempted
(`none` = `client.publish` was never called). -/
structure PubResult where
  ret : Bool
  state : PubState
  sent : Option (String × String × Bool)

/-- `full_topic = f"{STATE_PREFIX}/{topic}"` in `pylon_can2mqtt.py`. -/
def canFullTopic (topic : String) : String := "deye_bms" ++ "/" ++ topic

/-- `full_topic = f"{MQTT_PREFIX}/{topic}"` in `pylon_rs485_monitor.py`. -/
def rsFullTopic (topic : String) : String := "deye_bms/rs485" ++ "/" ++ topic

/-- Value normalization of the CAN bridge publisher: numerics are stored
as floats; a string is FIRST tried through `float(value)` and stored as
a float when that succeeds, otherwise stored literally.  The payload is
always `str(value)`. -/
def canNormalize (value : PyVal) : PyVal × String :=
  match value with
  | .num q => (.num q, pyStr (.num q))
  | .str s =>
    match pyFloat? s with
    | some q => (.num q, s)
    | none => (.str s, s)

/-- Value normalization of the RS485 monitor publisher: numerics are
stored as floats, everything else as `str(value)` (no `float()` retry). -/
def rsNormalize (value : PyVal) : PyVal × String :=
  match value with
  | .num q => (.num q, pyStr (.num q))
  | .str s => (.str s, s)

/-- The `try: self.client.publish(...) except: return False` tail of
both publishers: on success the cache entry is updated and `True`
returned; on a broker exception nothing is updated and `False` returned. -/
def attemptPublish (brokerOk : Bool) (st : PubState) (full_topic payload : String)
    (retain : Bool) (store_val : PyVal) (now : ℚ) : PubResult :=
  if brokerOk then
    ⟨true,
     ⟨fun t => if t = full_topic then some store_val else st.last_value t,
      fun t => if t = full_topic then some now else st.last_ts t⟩,
     some (full_topic, payload, retain)⟩
  else ⟨false, st, some (full_topic, payload, retain)⟩

/-- `Publisher.publish` of `pylon_can2mqtt.py`
(`FORCE_PUBLISH_INTERVAL_S = 60`). -/
def canPublish (brokerOk : Bool) (st : PubState) (topic : String) (value : PyVal)
    (retain : Bool) (min_interval : ℚ) (hyst : Option ℚ) (now : ℚ) : PubResult :=
  let full_topic := canFullTopic topic
  let prev_val := st.last_value full_topic
  let prev_ts := (st.last_ts full_topic).getD 0
  if now - prev_ts < min_interval then ⟨false, st, none⟩
  else
    let force_due := decide (now - prev_ts ≥ 60)
    let sv := canNormalize value
    match hyst with
    | none =>
      let should_pub := decide (prev_val ≠ some sv.1) || force_due
      if should_pub then attemptPublish brokerOk st full_topic sv.2 retain sv.1 now
      else ⟨false, st, none⟩
    | some h =>
      match sv.1 with
      | .str _ => ⟨false, st, none⟩
      | .num q =>
        let prev_num : Option ℚ := match prev_val with
          | some (.num p) => some p
          | _ => none
        let should_pub := force_due || prev_num.isNone ||
          decide (|q - prev_num.getD 0| ≥ h)
        if should_pub then attemptPublish brokerOk st full_topic sv.2 retain sv.1 now
        else ⟨false, st, none⟩

/-- `Publisher.publish` of `pylon_rs485_monitor.py`: identical decision
logic, but with the RS485 topic root and without the `float()` retry on
strings. -/
def rsPublish (brokerOk : Bool) (st : PubState) (topic : String) (value : PyVal)
    (retain : Bool) (min_interval : ℚ) (hyst : Option ℚ) (now : ℚ) : PubResult :=
  let full_topic := rsFullTopic topic
  let prev_val := st.last_value full_topic
  let prev_ts := (st.last_ts full_topic).getD 0
  if now - prev_ts < min_interval then ⟨false, st, none⟩
  else
    let force_due := decide (now - prev_ts ≥ 60)
    let sv := rsNormalize value
    match hyst with
    | none =>
      let should_pub := decide (prev_val ≠ some sv.1) || force_due
      if should_pub then attemptPublish brokerOk st full_topic sv.2 retain sv.1 now
      else ⟨false, st, none⟩
    | some h =>
      match sv.1 with
      | .str _ => ⟨false, st, none⟩
      | .num q =>
        let prev_num : Option ℚ := match prev_val with
          | some (.num p) => some p
          | _ => none
        let should_pub := force_due || prev_num.isNone ||
          decide (|q - prev_num.getD 0| ≥ h)
        if should_pub then attemptPublish brokerOk st full_topic sv.2 retain sv.1 now
        else ⟨false, st, none⟩

/-- A cache holding the numeric value 5, last published at t = 0, for
one topic (used by the C2 statements). -/
def stWithNum (ft : String) : PubState :=
  ⟨fun t => if t = ft then some (.num 5) else none, fun _ => some 0⟩

/-- A cache holding the literal string `"Idle"`, last published at
t = 0, for one topic (used by the C2 statements). -/
def stWithStr (ft : String) : PubState :=
  ⟨fun t => if t = ft then some (.str "Idle") else none, fun _ => some 0⟩

/-! ### RS485 analog-values decoder (`decode_analog_response`)

`pylon_rs485_monitor.py` walks the INFO hex string with a cursor `i`,
guarding every read with `if i + n <= len(data_hex)`; an unguarded
parse failure would be a Python exception, modelled as `none`.
`round1` models Python `round(x, 1)` (every value it is applied to here
is an exact multiple of 0.1, where rounding is the identity; Python's
round-half-to-even tie rule is irrelevant on such inputs). -/

def round1 (q : ℚ) : ℚ := ((round (q * 10) : ℤ) : ℚ) / 10

/-- `int(data_hex[i:i+n], 16)`. -/
def readHexAt? (s : List Char) (i n : ℕ) : Option ℕ :=
  parseHexStr? (slice s i (i + n))

/-- Result dict of `decode_analog_response`; `none` = key absent. -/
structure AnalogResult where
  header : List Char := []
  cells : Option (List ℚ) := none
  temps : Option (List ℚ) := none
  current : Option ℚ := none
  voltage : Option ℚ := none
  remain_ah : Option ℚ := none
  total_ah : Option ℚ := none
  cycles : Option ℕ := none
deriving DecidableEq, Repr

/-- The cell-voltage loop: `for _ in range(num_cells): if i + 4 <=
len(data_hex): cells.append(int(...)/1000.0); i += 4` (a failed bound
check appends nothing and leaves `i` unchanged). -/
def readCells (s : List Char) : ℕ → ℕ → Option (List ℚ × ℕ)
  | 0, i => some ([], i)
  | n + 1, i =>
    if i + 4 ≤ s.length then do
      let v ← readHexAt? s i 4
      let (rest, j) ← readCells s n (i + 4)
      some (((v : ℚ) / 1000) :: rest, j)
    else readCells s n i

/-- The temperature loop: raw values are deci-Kelvin,
`round((raw - 2731) / 10.0, 1)`. -/
def readTemps (s : List Char) : ℕ → ℕ → Option (List ℚ × ℕ)
  | 0, i => some ([], i)
  | n + 1, i =>
    if i + 4 ≤ s.length then do
      let raw ← readHexAt? s i 4
      let (rest, j) ← readTemps s n (i + 4)
      some (round1 ((((raw : ℤ) - 2731 : ℤ) : ℚ) / 10) :: rest, j)
    else readTemps s n i

/-- Temperature-count block (`if i + 2 <= len: num_temps = ...`). -/
def stepTemps (s : List Char) (x : AnalogResult × ℕ) : Option (AnalogResult × ℕ) :=
  if x.2 + 2 ≤ s.length then do
    let num_temps ← readHexAt? s x.2 2
    let (temps, j) ← readTemps s num_temps (x.2 + 2)
    some ({ x.1 with temps := some temps }, j)
  else some x

/-- Current block: signed 16-bit, centiamp units. -/
def stepCurrent (s : List Char) (x : AnalogResult × ℕ) : Option (AnalogResult × ℕ) :=
  if x.2 + 4 ≤ s.length then do
    let raw ← readHexAt? s x.2 4
    let c : ℤ := if raw > 0x7FFF then (raw : ℤ) - 0x10000 else (raw : ℤ)
    some ({ x.1 with current := some ((c : ℚ) / 100) }, x.2 + 4)
  else some x

/-- Pack-voltage block: centivolt units. -/
def stepVoltage (s : List Char) (x : AnalogResult × ℕ) : Option (AnalogResult × ℕ) :=
  if x.2 + 4 ≤ s.length then do
    let raw ← readHexAt? s x.2 4
    some ({ x.1 with voltage := some ((raw : ℚ) / 100) }, x.2 + 4)
  else some x

/-- Remaining-capacity block: 10 mAh units. -/
def stepRemain (s : List Char) (x : AnalogResult × ℕ) : Option (AnalogResult × ℕ) :=
  if x.2 + 4 ≤ s.length then do
    let raw ← readHexAt? s x.2 4
    some ({ x.1 with remain_ah := some ((raw : ℚ) / 100) }, x.2 + 4)
  else some x

/-- The skipped custom byte (`if i + 2 <= len: i += 2`). -/
def stepUserByte (s : List Char) (x : AnalogResult × ℕ) : AnalogResult × ℕ :=
  if x.2 + 2 ≤ s.length then (x.1, x.2 + 2) else x

/-- Total-capacity block: 10 mAh units. -/
def stepTotal (s : List Char) (x : AnalogResult × ℕ) : Option (AnalogResult × ℕ) :=
  if x.2 + 4 ≤ s.length then do
    let raw ← readHexAt? s x.2 4
    some ({ x.1 with total_ah := some ((raw : ℚ) / 100) }, x.2 + 4)
  else some x

/-- Cycle-count block. -/
def stepCycles (s : List Char) (x : AnalogResult × ℕ) : Option (AnalogResult × ℕ) :=
  if x.2 + 4 ≤ s.length then do
    let raw ← readHexAt? s x.2 4
    some ({ x.1 with cycles := some raw }, x.2)
  else some x

/-- Everything `decode_analog_response` does after the cell voltages,
in source order: temperatures, current, voltage, remaining capacity,
skipped user byte, total capacity, cycle count. -/
def analogAfterCells (s : List Char) (i : ℕ) (r : AnalogResult) : Option AnalogResult := do
  let x ← stepTemps s (r, i)
  let x ← stepCurrent s x
  let x ← stepVoltage s x
  let x ← stepRemain s x
  let x := stepUserByte s x
  let x ← stepTotal s x
  let x ← stepCycles s x
  some x.1

/-- `decode_analog_response` of `pylon_rs485_monitor.py`. -/
def decode_analog_response (s : List Char) : Option AnalogResult :=
  if 4 + 2 > s.length then some { header := slice s 0 4 }
  else do
    let num_cells ← readHexAt? s 4 2
    let (cells, i) ← readCells s num_cells 6
    analogAfterCells s i { header := slice s 0 4, cells := some cells }

/-! ### SOC derivation of `read_all_batteries` (C10) -/

/-- Python division, which raises `ZeroDivisionError` on a zero divisor. -/
def pyDiv (a b : ℚ) : Option ℚ := if b = 0 then none else some (a / b)

/-- Python truthiness of `data.get('total_ah')`: absent key or 0.0 are
falsy. -/
def pyTruthy (o : Option ℚ) : Bool :=
  match o with
  | none => false
  | some q => decide (q ≠ 0)

/-- The `soc` field of the battery record built by `read_all_batteries`:
`round(data.get('remain_ah', 0) / data.get('total_ah', 1) * 100, 1)
if data.get('total_ah') else 0`. -/
def batterySoc (data : AnalogResult) : Option ℚ :=
  if pyTruthy data.total_ah then
    (pyDiv (data.remain_ah.getD 0) (data.total_ah.getD 1)).map
      (fun x => round1 (x * 100))
  else some 0

/-! ### CAN 0x351 limit-frame handler (C8)

Model of the `arb == 0x351` branch of `main` in `pylon_can2mqtt.py`:
four little-endian 16-bit fields scaled by 0.1, four sanity windows
(`PACK_V_MIN_V = 30.0`, `PACK_V_MAX_V = 65.0`, `I_MAX_ABS_A = 500.0`),
each failing window `continue`s (no publish at all); otherwise the four
`limit/` topics are handed to the publisher with `round(v, 1)` (the
identity here, since every field is an exact multiple of 0.1). -/

def le_u16 (b0 b1 : ℕ) : ℕ := b0 ||| (b1 <<< 8)

/-- The publish attempts the 0x351 handler makes for data bytes
`d[0..7]`: empty when any sanity window fails. -/
def handle351 (b0 b1 b2 b3 b4 b5 b6 b7 : ℕ) : List (String × ℚ) :=
  let v_charge_max : ℚ := (le_u16 b0 b1 : ℚ) / 10
  let i_charge_lim : ℚ := (le_u16 b2 b3 : ℚ) / 10
  let i_dis_lim : ℚ := (le_u16 b4 b5 : ℚ) / 10
  let v_low_lim : ℚ := (le_u16 b6 b7 : ℚ) / 10
  if ¬ (30 ≤ v_charge_max ∧ v_charge_max ≤ 65) then []
  else if ¬ (30 ≤ v_low_lim ∧ v_low_lim ≤ 65) then []
  else if ¬ (0 ≤ i_charge_lim ∧ i_charge_lim ≤ 500) then []
  else if ¬ (0 ≤ i_dis_lim ∧ i_dis_lim ≤ 500) then []
  else [("limit/v_charge_max", round1 v_charge_max),
        ("limit/v_low", round1 v_low_lim),
        ("limit/i_charge", round1 i_charge_lim),
        ("limit/i_discharge", round1 i_dis_lim)]

/-! ### Modbus register decoding of the archived Deye prototype (C9) -/

/-- The declared encodings of `Register.data_type` (the `else` arm of
`read_register` falls back to `regs[0]`). -/
inductive ModbusType where
  | int16 | uint16 | int32 | uint32 | other
deriving DecidableEq, Repr

/-- Python `round(x, 3)` (all claim-relevant uses are tie-free, where
Python's half-to-even agrees with `round`). -/
def round3 (q : ℚ) : ℚ := ((round (q * 1000) : ℤ) : ℚ) / 1000

/-- The raw (sign-adjusted) register value computed by `read_register`
from the words returned by the holding-register read; `none` models the
`IndexError` (caught by the enclosing `try`) when too few words came
back. -/
def rawOf (t : ModbusType) (regs : List ℕ) : Option ℤ :=
  match t with
  | .int16 => (regs.get? 0).map (fun r0 =>
      if r0 > 0x7FFF then (r0 : ℤ) - 0x10000 else (r0 : ℤ))
  | .uint16 => (regs.get? 0).map (fun r0 => (r0 : ℤ))
  | .int32 => do
      let r0 ← regs.get? 0
      let r1 ← regs.get? 1
      let raw := r0 ||| (r1 <<< 16)
      pure (if raw > 0x7FFFFFFF then (raw : ℤ) - 0x100000000 else (raw : ℤ))
  | .uint32 => do
      let r0 ← regs.get? 0
      let r1 ← regs.get? 1
      pure ((r0 ||| (r1 <<< 16) : ℕ) : ℤ)
  | .other => (regs.get? 0).map (fun r0 => (r0 : ℤ))

/-- `read_register` after the holding-register read: `None` on a Modbus
error, else the scaled value `round(raw * scale + offset, 3)`. -/
def read_register (t : ModbusType) (isError : Bool) (regs : List ℕ)
    (scale offset : ℚ) : Option ℚ :=
  if isError then none
  else (rawOf t regs).map (fun raw => round3 ((raw : ℚ) * scale + offset))

/-! ### RS485 alarm-info decoder (`decode_alarm_response`, C7)

The `debug` dict and the `raw_bytes` capture inside `status` are pure
debug output (never read back and not involved in any severity
classification) and are omitted; every classifying field is modelled. -/

/-- The `status` sub-dict of the alarm record (`none`/`false` = key
absent). -/
structure AlarmStatus where
  balance_status : Option ℕ := none
  balance_on : Bool := false
  static_balance : Bool := false
  voltage_raw : Option ℕ := none
  mosfet_raw : Option ℕ := none
  discharge_mosfet_on : Option Bool := none
  charge_mosfet_on : Option Bool := none
  lmcharge_mosfet_on : Option Bool := none
  isolated : Option Bool := none
  balance1_8_raw : Option ℕ := none
  balance9_16_raw : Option ℕ := none
  cw_raw : Option (ℕ × ℕ) := none
  cw_active : Option Bool := none
  cw_cells : Option (List ℕ) := none
  state_raw : Option ℕ := none
  state : Option String := none
deriving DecidableEq, Repr

/-- Result dict of `decode_alarm_response`. -/
structure AlarmResult where
  balancing_cells : List ℕ := []
  overvolt_cells : List ℕ := []
  undervolt_cells : List ℕ := []
  overtemp_sensors : List ℕ := []
  undertemp_sensors : List ℕ := []
  warnings : List String := []
  protections : List String := []
  alarms : List String := []
  status : AlarmStatus := {}
  info_flag : Option ℕ := none
  battery_num : Option ℕ := none
  num_cells : Option ℕ := none
  num_temps : Option ℕ := none
deriving DecidableEq, Repr

/-- Per-cell status loop (`0x01` = under limit, `0x02` = over limit,
others ignored; an out-of-range read `break`s).  Returns
(undervolt_cells, overvolt_cells). -/
def cellStatusLoop (s : List Char) : ℕ → ℕ → Option (List ℕ × List ℕ)
  | 0, _ => some ([], [])
  | n + 1, c =>
    if 6 + c * 2 + 2 > s.length then some ([], [])
    else do
      let status ← readHexAt? s (6 + c * 2) 2
      let (uv, ov) ← cellStatusLoop s n (c + 1)
      if status = 1 then some ((c + 1) :: uv, ov)
      else if status = 2 then some (uv, (c + 1) :: ov)
      else some (uv, ov)

/-- Per-temperature status loop.  Returns
(undertemp_sensors, overtemp_sensors). -/
def tempStatusLoop (s : List Char) (temp_start : ℕ) : ℕ → ℕ → Option (List ℕ × List ℕ)
  | 0, _ => some ([], [])
  | n + 1, t =>
    if temp_start + t * 2 + 2 > s.length then some ([], [])
    else do
      let status ← readHexAt? s (temp_start + t * 2) 2
      let (ut, ot) ← tempStatusLoop s temp_start n (t + 1)
      if status = 1 then some ((t + 1) :: ut, ot)
      else if status = 2 then some (ut, (t + 1) :: ot)
      else some (ut, ot)

/-- `if charge_current == 0x02: protections.append('charge_overcurrent')`. -/
def chargeCurrentProt (cc : ℕ) : List String :=
  if cc = 2 then ["charge_overcurrent"] else []

/-- Module-voltage status byte: `0x01` → pack_undervolt, `0x02` →
pack_overvolt. -/
def moduleVoltageProt (mv : ℕ) : List String :=
  if mv = 1 then ["pack_undervolt"] else if mv = 2 then ["pack_overvolt"] else []

/-- The informational bits of the voltage-status bitfield (ByteIndex 4),
in source append order. -/
def voltageStatusWarnings (v : ℕ) : List String :=
  (if v &&& 0x01 ≠ 0 then ["cell_overvolt_alarm"] else []) ++
  (if v &&& 0x02 ≠ 0 then ["cell_overvolt_protect"] else []) ++
  (if v &&& 0x04 ≠ 0 then ["cell_undervolt_alarm"] else []) ++
  (if v &&& 0x10 ≠ 0 then ["pack_overvolt_alarm"] else []) ++
  (if v &&& 0x20 ≠ 0 then ["pack_overvolt_protect"] else []) ++
  (if v &&& 0x40 ≠ 0 then ["pack_undervolt_alarm"] else [])

/-- The protection bits of the voltage-status bitfield. -/
def voltageStatusProts (v : ℕ) : List String :=
  (if v &&& 0x08 ≠ 0 then ["cell_undervolt_protect"] else []) ++
  (if v &&& 0x80 ≠ 0 then ["pack_undervolt_protect"] else [])

/-- Per-cell balance flags from ByteIndex 9/10, reported only while the
Balance On flag is set (bit order of the source loop: cell b+1 before
cell b+9 for each bit b). -/
def balancingCellsOf (balance_on : Bool) (b18 b916 : ℕ) : List ℕ :=
  if balance_on then
    ((List.range 8).map (fun bit =>
      (if b18 &&& (1 <<< bit) ≠ 0 then [bit + 1] else []) ++
      (if b916 &&& (1 <<< bit) ≠ 0 then [bit + 9] else []))).flatten
  else []

/-- CW-flag cell list decoded from the legacy byte pair. -/
def cwCellsOf (cw1 cw2 : ℕ) : List ℕ :=
  ((List.range 8).map (fun bit =>
    (if cw1 &&& (1 <<< bit) ≠ 0 then [bit + 1] else []) ++
    (if cw2 &&& (1 <<< bit) ≠ 0 then [bit + 9] else []))).flatten

/-- Operating-state rendering of the final INFO byte. -/
def stateNamesOf (b : ℕ) : String :=
  let states :=
    (if b &&& 0x01 ≠ 0 then ["Discharge"] else []) ++
    (if b &&& 0x02 ≠ 0 then ["Charge"] else []) ++
    (if b &&& 0x04 ≠ 0 then ["Float"] else []) ++
    (if b &&& 0x08 ≠ 0 then ["Full"] else []) ++
    (if b &&& 0x10 ≠ 0 then ["Standby"] else []) ++
    (if b &&& 0x20 ≠ 0 then ["Shutdown"] else [])
  if states.isEmpty then "Idle" else String.intercalate ", " states

/-- The status-byte section of `decode_alarm_response` (everything after
the temperature loop, including the final
`result['alarms'] = list(result['protections'])`). -/
def alarmStatusBlock (s : List Char) (status_pos : ℕ) (r : AlarmResult) :
    Option AlarmResult := do
  let ext_bit_start := status_pos + 6
  let r ← (if status_pos + 2 ≤ s.length then
      (readHexAt? s status_pos 2).bind (fun cc =>
        some { r with protections := r.protections ++ chargeCurrentProt cc })
    else some r)
  let r ← (if status_pos + 4 ≤ s.length then
      (readHexAt? s (status_pos + 2) 2).bind (fun mv =>
        some { r with protections := r.protections ++ moduleVoltageProt mv })
    else some r)
  let r ← (if ext_bit_start + 2 ≤ s.length then
      (readHexAt? s ext_bit_start 2).bind (fun bs =>
        some { r with status := { r.status with
          balance_status := some bs
          balance_on := decide (bs &&& 0x01 ≠ 0)
          static_balance := decide (bs &&& 0x02 ≠ 0) } })
    else some r)
  let r ← (if ext_bit_start + 10 ≤ s.length then
      (readHexAt? s (ext_bit_start + 8) 2).bind (fun v =>
        some { r with
          status := { r.status with voltage_raw := some v }
          warnings := r.warnings ++ voltageStatusWarnings v
          protections := r.protections ++ voltageStatusProts v })
    else some r)
  let r ← (if ext_bit_start + 18 ≤ s.length then
      (readHexAt? s (ext_bit_start + 16) 2).bind (fun m =>
        some { r with status := { r.status with
          mosfet_raw := some m
          discharge_mosfet_on := some (decide (m &&& 0x01 ≠ 0))
          charge_mosfet_on := some (decide (m &&& 0x02 ≠ 0))
          lmcharge_mosfet_on := some (decide (m &&& 0x04 ≠ 0))
          isolated := some (decide (m &&& 0x03 = 0)) } })
    else some r)
  let r ← (if ext_bit_start + 22 ≤ s.length then
      (readHexAt? s (ext_bit_start + 18) 2).bind (fun b18 =>
        (readHexAt? s (ext_bit_start + 20) 2).bind (fun b916 =>
          some { r with
            status := { r.status with
              balance1_8_raw := some b18
              balance9_16_raw := some b916 }
            balancing_cells := balancingCellsOf r.status.balance_on b18 b916 }))
    else some r)
  let r ← (if status_pos + 22 ≤ s.length then
      (readHexAt? s (status_pos + 18) 2).bind (fun cw1 =>
        (readHexAt? s (status_pos + 20) 2).bind (fun cw2 =>
          some { r with status := { r.status with
            cw_raw := some (cw1, cw2)
            cw_active := some (decide (cw1 ≠ 0 ∨ cw2 ≠ 0))
            cw_cells := some (cwCellsOf cw1 cw2) } }))
    else some r)
  let r ← (if 2 ≤ s.length then
      (readHexAt? s (s.length - 2) 2).bind (fun lastb =>
        some { r with status := { r.status with
          state_raw := some lastb
          state := some (stateNamesOf lastb) } })
    else some r)
  some { r with alarms := r.protections }

/-- `decode_alarm_response` of `pylon_rs485_monitor.py`. -/
def decode_alarm_response (s : List Char) : Option AlarmResult :=
  if s.length < 10 then some {}
  else do
    let info_flag ← readHexAt? s 0 2
    let battery_num ← readHexAt? s 2 2
    let num_cells ← readHexAt? s 4 2
    let (uv, ov) ← cellStatusLoop s num_cells 0
    let r : AlarmResult :=
      { info_flag := some info_flag, battery_num := some battery_num,
        num_cells := some num_cells, undervolt_cells := uv, overvolt_cells := ov }
    if 6 + num_cells * 2 + 2 ≤ s.length then do
      let num_temps ← readHexAt? s (6 + num_cells * 2) 2
      let (ut, ot) ← tempStatusLoop s (6 + num_cells * 2 + 2) num_temps 0
      alarmStatusBlock s (6 + num_cells * 2 + 2 + num_temps * 2)
        { r with num_temps := some num_temps,
                 undertemp_sensors := ut, overtemp_sensors := ot }
    else some r

/-- The five strings `decode_alarm_response` can ever append to
`protections`. -/
def protNames : List String :=
  ["charge_overcurrent", "pack_undervolt", "pack_overvolt",
   "cell_undervolt_protect", "pack_undervolt_protect"]

/-- The six strings `decode_alarm_response` can ever append to
`warnings`. -/
def warnNames : List String :=
  ["cell_overvolt_alarm", "cell_overvolt_protect", "cell_undervolt_alarm",
   "pack_overvolt_alarm", "pack_overvolt_protect", "pack_undervolt_alarm"]

/-- A concrete alarm INFO body: 1 cell (overvolt), 1 temperature,
charge-overcurrent and pack-undervolt status, voltage bitfield `0x89`
(one warning bit, two protection bits), balance on, cells 1–2 balancing,
operating state Charge. -/
def c7Input : List Char :=
  ['0','0','0','0','0','1','0','2','0','1','0','0','0','2','0','1','0','0',
   '0','1','0','0','0','0','0','0','8','9','0','0','0','0','0','0','0','3',
   '0','3','0','0','0','2']

/-! ### Lemmas and claim theorems -/

lemma hexDigitsAux_congr : ∀ (fuel fuel2 n : ℕ), n < fuel → n < fuel2 →
    hexDigitsAux fuel n = hexDigitsAux fuel2 n := by
  intro fuel
  induction fuel with
  | zero => intro fuel2 n h1 _; omega
  | succ fuel ih =>
    intro fuel2 n h1 h2
    cases fuel2 with
    | zero => omega
    | succ fuel2 =>
      show (if n < 16 then _ else _) = (if n < 16 then _ else _)
      by_cases hn : n < 16
      · rw [if_pos hn, if_pos hn]
      · rw [if_neg hn, if_neg hn]
        have hd : n / 16 < n := Nat.div_lt_self (by omega) (by omega)
        rw [ih fuel2 (n / 16) (by omega) (by omega)]

/-- The defining recurrence of `hexDigits`. -/
lemma hexDigits_unfold (n : ℕ) :
    hexDigits n = if n < 16 then [hexDigitChar n]
      else hexDigits (n / 16) ++ [hexDigitChar (n % 16)] := by
  show (if n < 16 then _ else hexDigitsAux n (n / 16) ++ _) = _
  by_cases hn : n < 16
  · rw [if_pos hn, if_pos hn]
  · rw [if_neg hn, if_neg hn]
    have hd : n / 16 < n := Nat.div_lt_self (by omega) (by omega)
    rw [hexDigitsAux_congr n (n / 16 + 1) (n / 16) (by omega) (by omega)]
    rfl

lemma pyNegAnd_lt (total : ℕ) {m : ℕ} (hm : 0 < m) : pyNegAnd total m < m := by
  have h0 : (m : ℤ) ≠ 0 := by exact_mod_cast hm.ne.symm
  have h1 := Int.emod_nonneg (-(total : ℤ)) h0
  have h2 := Int.emod_lt_of_pos (-(total : ℤ)) (b := (m : ℤ)) (by exact_mod_cast hm)
  unfold pyNegAnd
  omega

lemma hexDigitVal?_lt {c : Char} {d : ℕ} (h : hexDigitVal? c = some d) : d < 16 := by
  unfold hexDigitVal? at h
  split at h
  · simp only [Option.some.injEq] at h; omega
  · split at h
    · simp only [Option.some.injEq] at h; omega
    · split at h
      · simp only [Option.some.injEq] at h; omega
      · exact absurd h (by simp)

lemma hexDigitVal?_hexDigitChar {d : ℕ} (h : d < 16) :
    hexDigitVal? (hexDigitChar d) = some d := by
  interval_cases d <;> decide

lemma isHexChar_hexDigitChar {d : ℕ} (h : d < 16) :
    isHexChar (hexDigitChar d) = true := by
  simp [isHexChar, hexDigitVal?_hexDigitChar h]

lemma hexDigits_ne_nil (n : ℕ) : hexDigits n ≠ [] := by
  rw [hexDigits_unfold]
  split <;> simp

lemma hexDigits_all_hex (n : ℕ) : ∀ c ∈ hexDigits n, isHexChar c = true := by
  induction n using Nat.strong_induction_on with
  | _ n ih =>
    rw [hexDigits_unfold]
    split
    · next h =>
      intro c hc
      simp only [List.mem_singleton] at hc
      subst hc
      exact isHexChar_hexDigitChar h
    · next h =>
      intro c hc
      simp only [List.mem_append, List.mem_singleton] at hc
      rcases hc with hc | hc
      · exact ih (n / 16) (Nat.div_lt_self (by omega) (by omega)) c hc
      · subst hc
        exact isHexChar_hexDigitChar (Nat.mod_lt _ (by omega))

lemma hexDigits_length_le {n w : ℕ} (h : n < 16 ^ w) (hw : 1 ≤ w) :
    (hexDigits n).length ≤ w := by
  induction n using Nat.strong_induction_on generalizing w with
  | _ n ih =>
    rw [hexDigits_unfold]
    split
    · next hlt => simpa using hw
    · next hlt =>
      have hw2 : 2 ≤ w := by
        by_contra hcon
        interval_cases w; omega
      have hdiv : n / 16 < 16 ^ (w - 1) := by
        have : n < 16 ^ (w - 1) * 16 := by
          have : 16 ^ (w - 1) * 16 = 16 ^ w := by
            rw [← pow_succ]
            congr 1
            omega
          omega
        omega
      have := ih (n / 16) (Nat.div_lt_self (by omega) (by omega)) hdiv (by omega)
      simp only [List.length_append, List.length_singleton]
      omega

lemma parseHexAux_append (l₁ l₂ : List Char) (a : ℕ) :
    parseHexAux (l₁ ++ l₂) a = (parseHexAux l₁ a).bind (parseHexAux l₂) := by
  induction l₁ generalizing a with
  | nil => simp [parseHexAux]
  | cons c cs ih =>
    simp only [List.cons_append, parseHexAux]
    cases hexDigitVal? c with
    | none => rfl
    | some d => exact ih _

lemma parseHexAux_hexDigits (n : ℕ) : ∀ a : ℕ,
    parseHexAux (hexDigits n) a = some (a * 16 ^ (hexDigits n).length + n) := by
  induction n using Nat.strong_induction_on with
  | _ n ih =>
    intro a
    rw [hexDigits_unfold]
    split
    · next h =>
      simp [parseHexAux, hexDigitVal?_hexDigitChar h]
      omega
    · next h =>
      rw [parseHexAux_append, ih (n / 16) (Nat.div_lt_self (by omega) (by omega)) a]
      have hmod : hexDigitVal? (hexDigitChar (n % 16)) = some (n % 16) :=
        hexDigitVal?_hexDigitChar (Nat.mod_lt _ (by omega))
      simp only [Option.some_bind, parseHexAux, hmod, List.length_append,
        List.length_singleton]
      congr 1
      rw [pow_succ, ← mul_assoc]
      generalize a * 16 ^ (hexDigits (n / 16)).length = t
      omega

lemma parseHexAux_replicate (k : ℕ) : ∀ a : ℕ,
    parseHexAux (List.replicate k '0') a = some (a * 16 ^ k) := by
  induction k with
  | zero => intro a; simp [parseHexAux]
  | succ k ih =>
    intro a
    have h0 : hexDigitVal? '0' = some 0 := by decide
    simp only [List.replicate, parseHexAux, h0]
    rw [ih]
    congr 1
    rw [pow_succ]
    ring

lemma natToHex_ne_nil (n w : ℕ) : natToHex n w ≠ [] := by
  intro hcon
  rcases List.append_eq_nil.mp hcon with ⟨-, h2⟩
  exact hexDigits_ne_nil n h2

lemma natToHex_length {n w : ℕ} (h : n < 16 ^ w) (hw : 1 ≤ w) :
    (natToHex n w).length = w := by
  have hle := hexDigits_length_le h hw
  simp only [natToHex, List.length_append, List.length_replicate]
  omega

lemma natToHex_all_hex (n w : ℕ) : ∀ c ∈ natToHex n w, isHexChar c = true := by
  intro c hc
  simp only [natToHex, List.mem_append, List.mem_replicate] at hc
  rcases hc with ⟨-, hc⟩ | hc
  · subst hc; decide
  · exact hexDigits_all_hex n c hc

lemma parseHexStr?_natToHex (n w : ℕ) :
    parseHexStr? (natToHex n w) = some n := by
  have hne : (natToHex n w).isEmpty = false := by
    rw [List.isEmpty_eq_false]
    exact natToHex_ne_nil n w
  rw [parseHexStr?, hne]
  simp only [Bool.false_eq_true, if_false, natToHex]
  rw [parseHexAux_append, parseHexAux_replicate]
  simp only [zero_mul, Option.some_bind]
  rw [parseHexAux_hexDigits]
  simp

lemma natToHex_four_eq_cons_three {n : ℕ} (h : n < 4096) :
    natToHex n 4 = '0' :: natToHex n 3 := by
  have hle : (hexDigits n).length ≤ 3 := hexDigits_length_le (by norm_num; omega) (by norm_num)
  simp only [natToHex]
  have h4 : 4 - (hexDigits n).length = (3 - (hexDigits n).length) + 1 := by omega
  rw [h4, List.replicate_succ, List.cons_append]

lemma isHexChar_ranges {c : Char} (h : isHexChar c = true) :
    (48 ≤ c.toNat ∧ c.toNat ≤ 57) ∨ (97 ≤ c.toNat ∧ c.toNat ≤ 102) ∨
      (65 ≤ c.toNat ∧ c.toNat ≤ 70) := by
  unfold isHexChar hexDigitVal? at h
  split at h
  · next h1 => exact Or.inl h1
  · split at h
    · next h2 => exact Or.inr (Or.inl h2)
    · split at h
      · next h3 => exact Or.inr (Or.inr h3)
      · simp at h

lemma isPySpace_eq_false_of_hex {c : Char} (h : isHexChar c = true) :
    isPySpace c = false := by
  have := isHexChar_ranges h
  simp only [isPySpace, decide_eq_false_iff_not]
  omega

lemma ne_tilde_of_hex {c : Char} (h : isHexChar c = true) : (c = '~') = False := by
  have := isHexChar_ranges h
  simp only [eq_iff_iff, iff_false]
  intro hc
  subst hc
  simp at this

lemma ne_cr_of_hex {c : Char} (h : isHexChar c = true) : (c = '\r') = False := by
  have := isHexChar_ranges h
  simp only [eq_iff_iff, iff_false]
  intro hc
  subst hc
  simp at this

lemma slice_append_left {x y : List Char} {i j : ℕ} (h : j ≤ x.length) :
    slice (x ++ y) i j = slice x i j := by
  unfold slice
  rw [List.drop_append_eq_append_drop, List.take_append_eq_append_take]
  have h1 : j - i - (x.drop i).length = 0 := by
    rw [List.length_drop]
    omega
  rw [h1, List.take_zero, List.append_nil]

lemma slice_append_right {x y : List Char} {i j : ℕ} (h : x.length ≤ i) :
    slice (x ++ y) i j = slice y (i - x.length) (j - x.length) := by
  unfold slice
  rw [List.drop_append_eq_append_drop]
  have h1 : x.drop i = [] := List.drop_eq_nil_of_le h
  rw [h1, List.nil_append]
  congr 1
  omega

lemma slice_self (x : List Char) : slice x 0 x.length = x := by
  simp [slice]

/-- Stripping behaviour of `decode_response` on a `make_command` frame:
`strip()`, `lstrip('~')`, `rstrip('\r')` leave exactly the frame body
followed by the checksum. -/
lemma decode_text_make_command (addr cid2 : ℕ) (info : List Char)
    (hhex : ∀ c ∈ info, isHexChar c = true) :
    pyRstrip '\r' (pyLstrip '~' (pyStrip (make_command addr cid2 info))) =
      frame_content addr cid2 info ++ calc_chksum (frame_content addr cid2 info) := by
  set fc := frame_content addr cid2 info with hfc
  set cs := calc_chksum fc with hcs
  -- every character of the body is a hex digit
  have hfc_hex : ∀ c ∈ fc, isHexChar c = true := by
    intro c hcmem
    rw [hfc] at hcmem
    simp only [frame_content, lenid, List.append_assoc, List.mem_append] at hcmem
    rcases hcmem with h1 | h1 | h1 | h1 | h1 | h1 | h1
    · simp only [List.mem_cons, List.not_mem_nil, or_false] at h1
      rcases h1 with h1 | h1
      · subst h1; decide
      · subst h1; decide
    · exact natToHex_all_hex _ _ _ h1
    · simp only [List.mem_cons, List.not_mem_nil, or_false] at h1
      rcases h1 with h1 | h1
      · subst h1; decide
      · subst h1; decide
    · exact natToHex_all_hex _ _ _ h1
    · exact natToHex_all_hex _ _ _ h1
    · exact natToHex_all_hex _ _ _ h1
    · exact hhex _ h1
  have hcs_hex : ∀ c ∈ cs, isHexChar c = true := by
    intro c hcmem
    rw [hcs] at hcmem
    exact natToHex_all_hex _ _ _ hcmem
  -- the checksum is nonempty; name its reversed head
  have hcs_ne : cs ≠ [] := by rw [hcs]; exact natToHex_ne_nil _ _
  have hcsrev_ne : cs.reverse ≠ [] := by simpa using hcs_ne
  obtain ⟨d, ds, hds⟩ := List.exists_cons_of_ne_nil hcsrev_ne
  have hd_hex : isHexChar d = true := by
    have : d ∈ cs.reverse := by rw [hds]; exact List.mem_cons_self _ _
    exact hcs_hex d (List.mem_reverse.mp this)
  -- the frame body starts with the literal '2' of VER = "20"
  obtain ⟨fc', hfc'⟩ : ∃ fc', fc = '2' :: fc' := by
    rw [hfc]; exact ⟨_, rfl⟩
  have hrest : ('~' :: (fc ++ cs)).reverse = d :: (ds ++ (fc.reverse ++ ['~'])) := by
    rw [List.reverse_cons, List.reverse_append, hds]
    simp
  -- step 1: strip() leaves '~' at the front and removes the trailing '\r'
  have step1 : pyStrip (make_command addr cid2 info) = '~' :: (fc ++ cs) := by
    unfold pyStrip make_command
    rw [← hfc, ← hcs]
    have hfront : List.dropWhile isPySpace ('~' :: (fc ++ cs ++ ['\r'])) =
        '~' :: (fc ++ cs ++ ['\r']) := by
      rw [List.dropWhile_cons]
      simp [isPySpace]
    rw [hfront]
    have hy : ('~' :: (fc ++ cs ++ ['\r'])) = ('~' :: (fc ++ cs)) ++ ['\r'] := by
      simp
    rw [hy, List.reverse_append, List.reverse_singleton, List.singleton_append,
      List.dropWhile_cons]
    simp only [show isPySpace '\r' = true from by decide, if_true]
    rw [hrest, List.dropWhile_cons]
    simp only [isPySpace_eq_false_of_hex hd_hex, Bool.false_eq_true, if_false]
    rw [← hrest, List.reverse_reverse]
  rw [step1]
  -- step 2: lstrip('~') removes exactly the leading tilde
  have step2 : pyLstrip '~' ('~' :: (fc ++ cs)) = fc ++ cs := by
    unfold pyLstrip
    rw [List.dropWhile_cons]
    simp only [decide_eq_true_eq, if_true]
    rw [hfc', List.cons_append, List.dropWhile_cons]
    simp [show (('2' : Char) = '~') = False from by decide]
  rw [step2]
  -- step 3: rstrip('\r') is the identity: the last char is a hex digit
  have hrest2 : (fc ++ cs).reverse = d :: (ds ++ fc.reverse) := by
    rw [List.reverse_append, hds]
    simp
  unfold pyRstrip
  rw [hrest2, List.dropWhile_cons]
  simp only [ne_cr_of_hex hd_hex, decide_False, Bool.false_eq_true, if_false]
  rw [← hrest2, List.reverse_reverse]

lemma slice_prefix_eq {x y : List Char} {n : ℕ} (h : x.length = n) :
    slice (x ++ y) 0 n = x := by
  subst h
  rw [slice_append_left (le_refl _)]
  exact slice_self x

lemma slice_exact {x : List Char} {n : ℕ} (h : x.length = n) :
    slice x 0 n = x := by
  subst h
  exact slice_self x

lemma slice_eq_self_of {x : List Char} {i j : ℕ} (hi : i = 0) (hj : x.length ≤ j) :
    slice x i j = x := by
  subst hi
  simp only [slice, List.drop_zero, Nat.sub_zero]
  exact List.take_of_length_le hj

/-- Field-by-field decode of an encoded frame.  Packaged as one record
equality plus the recovery facts C4 needs. -/
theorem make_command_decode_fields (addr cid2 : ℕ) (info : List Char)
    (ha : addr < 256) (hc : cid2 < 256) (hlen : info.length ≤ 4095)
    (hhex : ∀ c ∈ info, isHexChar c = true) :
    decode_response (make_command addr cid2 info) =
      some { ver := ['2', '0'], addr := addr, cid1 := ['4', '6'],
             rtn := natToHex cid2 2, length := lenid info.length,
             info := info,
             checksum := calc_chksum (frame_content addr cid2 info) } := by
  have ha2 : addr < 16 ^ 2 := by norm_num; omega
  have hc2 : cid2 < 16 ^ 2 := by norm_num; omega
  have hl3 : info.length < 16 ^ 3 := by norm_num; omega
  have hA : (natToHex addr 2).length = 2 := natToHex_length ha2 (by norm_num)
  have hB : (natToHex cid2 2).length = 2 := natToHex_length hc2 (by norm_num)
  have hL1 : (natToHex (lchksum_val info.length) 1).length = 1 :=
    natToHex_length (by simpa using pyNegAnd_lt _ (m := 16) (by norm_num)) (le_refl _)
  have hL3 : (natToHex info.length 3).length = 3 := natToHex_length hl3 (by norm_num)
  have hlenid4 : (lenid info.length).length = 4 := by
    simp only [lenid, List.length_append, hL1, hL3]
  set fc := frame_content addr cid2 info with hfc
  set cs := calc_chksum fc with hcs
  have hfc_len : fc.length = 12 + info.length := by
    rw [hfc]
    simp only [frame_content, lenid, List.length_append, List.length_cons,
      List.length_nil, hA, hB, hL1, hL3]
  have hcs_len : cs.length = 4 := by
    rw [hcs]
    exact natToHex_length (by
      simpa using pyNegAnd_lt _ (m := 65536) (by norm_num)) (by norm_num)
  have htot : (fc ++ cs).length = 16 + info.length := by
    rw [List.length_append, hfc_len, hcs_len]
    omega
  have htext := decode_text_make_command addr cid2 info hhex
  rw [← hfc, ← hcs] at htext
  -- chunk extraction inside the frame body
  have hsplit : fc = ['2', '0'] ++ (natToHex addr 2 ++ (['4', '6'] ++
      (natToHex cid2 2 ++ (lenid info.length ++ info)))) := by
    rw [hfc]
    simp [frame_content]
  have e_ver : slice (fc ++ cs) 0 2 = ['2', '0'] := by
    rw [slice_append_left (by omega), hsplit, slice_append_left (by simp)]
    exact slice_exact rfl
  have e_adr : slice (fc ++ cs) 2 4 = natToHex addr 2 := by
    rw [slice_append_left (by omega), hsplit,
      slice_append_right (by simp)]
    simpa using slice_prefix_eq (n := 2) hA
  have e_cid1 : slice (fc ++ cs) 4 6 = ['4', '6'] := by
    rw [slice_append_left (by omega), hsplit,
      slice_append_right (by simp), slice_append_right (by simp [hA])]
    simpa [hA] using slice_prefix_eq (n := 2) (x := (['4', '6'] : List Char)) rfl
  have e_rtn : slice (fc ++ cs) 6 8 = natToHex cid2 2 := by
    rw [slice_append_left (by omega), hsplit,
      slice_append_right (by simp), slice_append_right (by simp [hA]),
      slice_append_right (by simp [hA])]
    simpa [hA] using slice_prefix_eq (n := 2) hB
  have e_len : slice (fc ++ cs) 8 12 = lenid info.length := by
    rw [slice_append_left (by omega), hsplit,
      slice_append_right (by simp), slice_append_right (by simp [hA]),
      slice_append_right (by simp [hA]), slice_append_right (by simp [hA, hB])]
    simpa [hA, hB] using slice_prefix_eq (n := 4) hlenid4
  have e_info : slice (fc ++ cs) 12 (12 + info.length) = info := by
    rw [slice_append_left (by omega), hsplit,
      slice_append_right (by simp), slice_append_right (by simp [hA]),
      slice_append_right (by simp [hA]), slice_append_right (by simp [hA, hB]),
      slice_append_right (by simp [hA, hB, hlenid4])]
    apply slice_eq_self_of
    · simp [hA, hB, hlenid4]
    · simp only [hA, hB, hlenid4, List.length_cons, List.length_nil]
      omega
  have e_chk : (fc ++ cs).drop ((fc ++ cs).length - 4) = cs := by
    have : (fc ++ cs).length - 4 = fc.length := by omega
    rw [this]
    exact List.drop_left fc cs
  have hmatch := parseHexStr?_natToHex addr 2
  have hinfo_case : (if 16 < (fc ++ cs).length then
      slice (fc ++ cs) 12 ((fc ++ cs).length - 4) else []) = info := by
    rw [htot]
    by_cases h0 : 0 < info.length
    · rw [if_pos (by omega)]
      have : 16 + info.length - 4 = 12 + info.length := by omega
      rw [this]
      exact e_info
    · have hnil : info = [] := List.length_eq_zero.mp (by omega)
      rw [if_neg (by omega), hnil]
  have hchk_case : (if 4 ≤ (fc ++ cs).length then
      (fc ++ cs).drop ((fc ++ cs).length - 4) else []) = cs := by
    rw [if_pos (by omega)]
    exact e_chk
  unfold decode_response
  rw [htext]
  simp only [e_adr, hmatch, e_ver, e_cid1, e_rtn, e_len, hinfo_case, hchk_case]

lemma parseHexAux_natToHex (n w a : ℕ) :
    parseHexAux (natToHex n w) a = some (a * 16 ^ (natToHex n w).length + n) := by
  unfold natToHex
  rw [parseHexAux_append, parseHexAux_replicate, Option.some_bind,
    parseHexAux_hexDigits]
  congr 1
  rw [List.length_append, List.length_replicate, pow_add]
  ring

/-- C4: for every address and CID2 in 0..255 and every hex INFO of length
at most 4095, decoding the `make_command` frame at the fixed character
offsets (address at characters 2..4 after `~`, CID2 at 6..8, INFO between
LENID and the last 4 characters) recovers `(addr, cid2, info)`, and the
trailing CHKSUM is `(-sum_of_ASCII_bytes_of_frame_body) & 0xFFFF` rendered
as four uppercase hex digits, so recomputing the checksum over the frame
body reproduces the trailing CHKSUM field. -/
theorem c4_frame_roundtrip (addr cid2 : ℕ) (info : List Char)
    (ha : addr < 256) (hc : cid2 < 256) (hlen : info.length ≤ 4095)
    (hhex : ∀ c ∈ info, isHexChar c = true) :
    ∃ r, decode_response (make_command addr cid2 info) = some r ∧
      r.addr = addr ∧
      parseHexStr? r.rtn = some cid2 ∧
      r.info = info ∧
      r.checksum = natToHex (pyNegAnd (charSum (frame_content addr cid2 info)) 65536) 4 ∧
      calc_chksum (frame_content addr cid2 info) = r.checksum :=
  ⟨_, make_command_decode_fields addr cid2 info ha hc hlen hhex, rfl,
    parseHexStr?_natToHex cid2 2, rfl, rfl, rfl⟩

/-- Witness for C4 at the concrete analog request `make_command 2 0x42 "02"`. -/
theorem c4_frame_roundtrip_witness :
    (2 : ℕ) < 256 ∧ (66 : ℕ) < 256 ∧
      (['0', '2'] : List Char).length ≤ 4095 ∧
      (∃ r, decode_response (make_command 2 66 ['0', '2']) = some r ∧
        r.addr = 2 ∧
        parseHexStr? r.rtn = some 66 ∧
        r.info = ['0', '2'] ∧
        r.checksum = natToHex (pyNegAnd (charSum (frame_content 2 66 ['0', '2'])) 65536) 4 ∧
        calc_chksum (frame_content 2 66 ['0', '2']) = r.checksum) :=
  ⟨by decide, by decide, by decide,
    c4_frame_roundtrip 2 66 ['0', '2'] (by decide) (by decide) (by decide) (by decide)⟩

/-- C5 counterexample: at INFO length 2 the generated LENID is `"E002"`
(value 0xE002): its LOW nibble is 2, not the checksum nibble 14, and the
remaining three nibbles are 0xE00 = 3584, not the length.  The checksum
sits in the HIGH nibble. -/
theorem c5_low_nibble_counterexample :
    parseHexStr? (lenid 2) = some 57346 ∧ lchksum_val 2 = 14 ∧
      ¬ (57346 % 16 = lchksum_val 2) ∧ ¬ (57346 / 16 = 2) := by
  decide

/-- C5 (amended): the LENID emitted by `make_command` has its HIGH nibble
(the first of its four hex characters) equal to the nibble checksum
`(-sum_of_nibbles) & 0xF` over the three hex digits of the length, and
its low three nibbles equal to the length; parsing the low 12 bits of the
generated LENID recovers the length, and the 3-digit nibble sum used by
`make_command` agrees with `calc_lchksum` (which formats on 4 digits)
for every length 0..4095. -/
theorem c5_lenid_checksum (length : ℕ) (h : length ≤ 4095) :
    parseHexStr? (lenid length) = some (lchksum_val length * 4096 + length) ∧
      (lchksum_val length * 4096 + length) / 4096 = lchksum_val length ∧
      (lchksum_val length * 4096 + length) % 4096 = length ∧
      lchksum_val length = calc_lchksum length := by
  have hl : length < 16 ^ 3 := by norm_num; omega
  have hck : lchksum_val length < 16 := pyNegAnd_lt _ (by norm_num)
  refine ⟨?_, by omega, by omega, ?_⟩
  · have hne : (lenid length).isEmpty = false := by
      rw [List.isEmpty_eq_false]
      intro hcon
      unfold lenid at hcon
      rcases List.append_eq_nil.mp hcon with ⟨h1, -⟩
      exact natToHex_ne_nil _ _ h1
    rw [parseHexStr?, hne]
    simp only [Bool.false_eq_true, if_false, lenid]
    rw [parseHexAux_append, parseHexAux_natToHex, Option.some_bind,
      parseHexAux_natToHex, natToHex_length hl (by norm_num)]
    norm_num
  · unfold calc_lchksum lchksum_val
    rw [natToHex_four_eq_cons_three (by omega)]
    simp [hexCharSum, show hexDigitVal? '0' = some 0 from by decide]

/-- Witness for C5 at length 2. -/
theorem c5_lenid_checksum_witness :
    (2 : ℕ) ≤ 4095 ∧
      (parseHexStr? (lenid 2) = some (lchksum_val 2 * 4096 + 2) ∧
        (lchksum_val 2 * 4096 + 2) / 4096 = lchksum_val 2 ∧
        (lchksum_val 2 * 4096 + 2) % 4096 = 2 ∧
        lchksum_val 2 = calc_lchksum 2) :=
  ⟨by decide, c5_lenid_checksum 2 (by decide)⟩

/-- C1: for every topic and every call to `Publisher.publish` (in both
the CAN bridge and the RS485 monitor), if the time elapsed since the
topic's last recorded publish timestamp is strictly below `min_interval`,
the call returns `False`, performs no broker publish, and leaves the
cache (stored value and timestamp) unchanged — for any value, any
hysteresis, and whether or not the broker would succeed. -/
theorem c1_min_interval_hard_floor :
    (∀ brokerOk st topic value retain min_interval hyst now,
      now - ((st.last_ts (canFullTopic topic)).getD 0) < min_interval →
      canPublish brokerOk st topic value retain min_interval hyst now =
        ⟨false, st, none⟩) ∧
    (∀ brokerOk st topic value retain min_interval hyst now,
      now - ((st.last_ts (rsFullTopic topic)).getD 0) < min_interval →
      rsPublish brokerOk st topic value retain min_interval hyst now =
        ⟨false, st, none⟩) := by
  constructor
  · intro brokerOk st topic value retain min_interval hyst now h
    unfold canPublish
    rw [if_pos h]
  · intro brokerOk st topic value retain min_interval hyst now h
    unfold rsPublish
    rw [if_pos h]

/-- Witness for C1: a topic last published at t = 0, called again at
t = 0.5 with `min_interval = 1` and a changed value. -/
theorem c1_min_interval_hard_floor_witness :
    ((1 : ℚ) / 2 - (((PubState.mk (fun _ => some (.num 3)) (fun _ => some 0)).last_ts
        (canFullTopic "soc")).getD 0) < 1 ∧
      canPublish true (PubState.mk (fun _ => some (.num 3)) (fun _ => some 0))
          "soc" (.num 99) false 1 none (1 / 2) =
        ⟨false, PubState.mk (fun _ => some (.num 3)) (fun _ => some 0), none⟩) ∧
    ((1 : ℚ) / 2 - (((PubState.mk (fun _ => some (.num 3)) (fun _ => some 0)).last_ts
        (rsFullTopic "stack/voltage")).getD 0) < 1 ∧
      rsPublish true (PubState.mk (fun _ => some (.num 3)) (fun _ => some 0))
          "stack/voltage" (.num 99) false 1 none (1 / 2) =
        ⟨false, PubState.mk (fun _ => some (.num 3)) (fun _ => some 0), none⟩) :=
  ⟨⟨by norm_num, c1_min_interval_hard_floor.1 true _ "soc" (.num 99) false 1 none
      (1 / 2) (by norm_num)⟩,
   ⟨by norm_num, c1_min_interval_hard_floor.2 true _ "stack/voltage" (.num 99) false 1 none
      (1 / 2) (by norm_num)⟩⟩

/-- C3: when `client.publish` raises (`brokerOk = false`), every call of
the CAN bridge publisher returns `False` and leaves the cache (stored
last value and timestamp) exactly as it was, so the next call for the
topic re-evaluates against the old cache state; the exception never
propagates (the model is total, mirroring the bare `except`). -/
theorem c3_broker_error_swallowed :
    ∀ st topic value retain min_interval hyst now,
      ∃ sent, canPublish false st topic value retain min_interval hyst now =
        ⟨false, st, sent⟩ := by
  intro st topic value retain min_interval hyst now
  unfold canPublish
  split
  · -- hyst = none
    dsimp only
    split
    · exact ⟨none, rfl⟩
    · split
      · unfold attemptPublish
        rw [if_neg (by simp)]
        exact ⟨_, rfl⟩
      · exact ⟨none, rfl⟩
  · -- hyst = some h
    dsimp only
    split
    · exact ⟨none, rfl⟩
    · split
      · exact ⟨none, rfl⟩
      · split
        · unfold attemptPublish
          rw [if_neg (by simp)]
          exact ⟨_, rfl⟩
        · exact ⟨none, rfl⟩

/-- C2 counterexample: in the CAN bridge publisher a *string* value
`"5.0"` replacing the stored numeric 5 does NOT publish (min_interval
elapsed, no force-republish due): `float("5.0")` succeeds, the string is
canonicalized to the float 5.0 and counts as equal to the stored
numeric, so the call returns `False` and performs no broker publish. -/
theorem c2_cross_type_counterexample :
    canPublish true (stWithNum (canFullTopic "flags")) "flags" (.str "5.0")
        false 1 none 2 =
      ⟨false, stWithNum (canFullTopic "flags"), none⟩ := by
  have hpf : pyFloat? "5.0" = some 5 := by
    rw [show pyFloat? "5.0" =
      some (((1 : ℤ) : ℚ) * (((5 : ℕ) : ℚ) + ((0 : ℕ) : ℚ) / 10 ^ 1)) from rfl]
    norm_num
  unfold canPublish
  dsimp only
  split
  · rfl
  · split
    · next hsp =>
      exfalso
      simp [stWithNum, canNormalize, hpf] at hsp
      norm_num at hsp
    · rfl

/-- C2 (amended): in the RS485 monitor's publisher every string is
stored literally, so a cross-type replacement (string over stored
numeric, or numeric over stored string) always publishes once
min_interval has elapsed.  In the CAN bridge's publisher a string value
is first canonicalized through `float()`; only a string that does NOT
parse as a float is compared literally and then always publishes over a
stored numeric, while a numeric over a stored string always publishes. -/
theorem c2_cross_type_publishes :
    (∀ st topic s retain min_interval now p,
      ¬ (now - ((st.last_ts (rsFullTopic topic)).getD 0) < min_interval) →
      st.last_value (rsFullTopic topic) = some (.num p) →
      (rsPublish true st topic (.str s) retain min_interval none now).ret = true) ∧
    (∀ st topic q retain min_interval hyst now sPrev,
      ¬ (now - ((st.last_ts (rsFullTopic topic)).getD 0) < min_interval) →
      st.last_value (rsFullTopic topic) = some (.str sPrev) →
      (rsPublish true st topic (.num q) retain min_interval hyst now).ret = true) ∧
    (∀ st topic s retain min_interval now p,
      ¬ (now - ((st.last_ts (canFullTopic topic)).getD 0) < min_interval) →
      pyFloat? s = none →
      st.last_value (canFullTopic topic) = some (.num p) →
      (canPublish true st topic (.str s) retain min_interval none now).ret = true) ∧
    (∀ st topic q retain min_interval hyst now sPrev,
      ¬ (now - ((st.last_ts (canFullTopic topic)).getD 0) < min_interval) →
      st.last_value (canFullTopic topic) = some (.str sPrev) →
      (canPublish true st topic (.num q) retain min_interval hyst now).ret = true) := by
  refine ⟨?_, ?_, ?_, ?_⟩
  · intro st topic s retain min_interval now p hmi hprev
    unfold rsPublish
    rw [if_neg hmi]
    simp [rsNormalize, hprev, attemptPublish]
  · intro st topic q retain min_interval hyst now sPrev hmi hprev
    unfold rsPublish
    rw [if_neg hmi]
    cases hyst with
    | none => simp [rsNormalize, hprev, attemptPublish]
    | some h => simp [rsNormalize, hprev, attemptPublish]
  · intro st topic s retain min_interval now p hmi hpf hprev
    unfold canPublish
    rw [if_neg hmi]
    simp [canNormalize, hpf, hprev, attemptPublish]
  · intro st topic q retain min_interval hyst now sPrev hmi hprev
    unfold canPublish
    rw [if_neg hmi]
    cases hyst with
    | none => simp [canNormalize, hprev, attemptPublish]
    | some h => simp [canNormalize, hprev, attemptPublish]

/-- Witness for the amended C2 at concrete cross-type calls. -/
theorem c2_cross_type_publishes_witness :
    (rsPublish true (stWithNum (rsFullTopic "state")) "state" (.str "Charge")
        false 1 none 2).ret = true ∧
    (rsPublish true (stWithStr (rsFullTopic "state")) "state" (.num 7)
        false 1 none 2).ret = true ∧
    (canPublish true (stWithNum (canFullTopic "flags")) "flags" (.str "Idle")
        false 1 none 2).ret = true ∧
    (canPublish true (stWithStr (canFullTopic "flags")) "flags" (.num 7)
        false 1 (some 1) 2).ret = true :=
  ⟨c2_cross_type_publishes.1 _ "state" "Charge" false 1 2 5
     (by norm_num [stWithNum]) (by simp [stWithNum]),
   c2_cross_type_publishes.2.1 _ "state" 7 false 1 none 2 "Idle"
     (by norm_num [stWithStr]) (by simp [stWithStr]),
   c2_cross_type_publishes.2.2.1 _ "flags" "Idle" false 1 2 5
     (by norm_num [stWithNum]) rfl (by simp [stWithNum]),
   c2_cross_type_publishes.2.2.2 _ "flags" 7 false 1 (some 1) 2 "Idle"
     (by norm_num [stWithStr]) (by simp [stWithStr])⟩

lemma slice_subset (s : List Char) (i j : ℕ) : slice s i j ⊆ s := by
  intro c hc
  unfold slice at hc
  exact (List.drop_sublist i s).subset ((List.take_sublist _ _).subset hc)

lemma parseHexAux_isSome {l : List Char} (h : ∀ c ∈ l, isHexChar c = true) :
    ∀ a : ℕ, (parseHexAux l a).isSome = true := by
  induction l with
  | nil => intro a; rfl
  | cons c cs ih =>
    intro a
    have hc : isHexChar c = true := h c (List.mem_cons_self _ _)
    rw [isHexChar, Option.isSome_iff_exists] at hc
    obtain ⟨d, hd⟩ := hc
    simp only [parseHexAux, hd]
    exact ih (fun x hx => h x (List.mem_cons_of_mem _ hx)) _

lemma readHexAt?_eq_some {s : List Char} {i n : ℕ} (hn : 0 < n)
    (hle : i + n ≤ s.length) (hhex : ∀ c ∈ s, isHexChar c = true) :
    ∃ v, readHexAt? s i n = some v := by
  rw [← Option.isSome_iff_exists]
  unfold readHexAt? parseHexStr?
  have hlen : (slice s i (i + n)).length = n := by
    unfold slice
    rw [List.length_take, List.length_drop]
    omega
  have hne : (slice s i (i + n)).isEmpty = false := by
    rw [List.isEmpty_eq_false]
    intro hcon
    rw [hcon] at hlen
    simp at hlen
    omega
  rw [hne]
  simp only [Bool.false_eq_true, if_false]
  exact parseHexAux_isSome (fun c hc => hhex c (slice_subset s i (i + n) hc)) 0

lemma readCells_isSome {s : List Char} (hhex : ∀ c ∈ s, isHexChar c = true) :
    ∀ n i, (readCells s n i).isSome = true := by
  intro n
  induction n with
  | zero => intro i; rfl
  | succ n ih =>
    intro i
    unfold readCells
    by_cases h : i + 4 ≤ s.length
    · rw [if_pos h]
      obtain ⟨v, hv⟩ := readHexAt?_eq_some (by omega) h hhex
      rw [hv]
      simp only [Option.some_bind]
      have := ih (i + 4)
      rw [Option.isSome_iff_exists] at this
      obtain ⟨⟨rest, j⟩, hrc⟩ := this
      rw [hrc]
      rfl
    · rw [if_neg h]
      exact ih i

lemma readTemps_isSome {s : List Char} (hhex : ∀ c ∈ s, isHexChar c = true) :
    ∀ n i, (readTemps s n i).isSome = true := by
  intro n
  induction n with
  | zero => intro i; rfl
  | succ n ih =>
    intro i
    unfold readTemps
    by_cases h : i + 4 ≤ s.length
    · rw [if_pos h]
      obtain ⟨v, hv⟩ := readHexAt?_eq_some (by omega) h hhex
      rw [hv]
      simp only [Option.some_bind]
      have := ih (i + 4)
      rw [Option.isSome_iff_exists] at this
      obtain ⟨⟨rest, j⟩, hrc⟩ := this
      rw [hrc]
      rfl
    · rw [if_neg h]
      exact ih i

lemma stepTemps_isSome {s : List Char} (hhex : ∀ c ∈ s, isHexChar c = true)
    (x : AnalogResult × ℕ) : (stepTemps s x).isSome = true := by
  unfold stepTemps
  by_cases h : x.2 + 2 ≤ s.length
  · rw [if_pos h]
    obtain ⟨v, hv⟩ := readHexAt?_eq_some (by omega) h hhex
    rw [hv]
    obtain ⟨⟨temps, j⟩, hrt⟩ :=
      Option.isSome_iff_exists.mp (readTemps_isSome hhex v (x.2 + 2))
    show ((readTemps s v (x.2 + 2)).bind _).isSome = true
    rw [hrt]
    rfl
  · rw [if_neg h]
    rfl

lemma stepCurrent_isSome {s : List Char} (hhex : ∀ c ∈ s, isHexChar c = true)
    (x : AnalogResult × ℕ) : (stepCurrent s x).isSome = true := by
  unfold stepCurrent
  by_cases h : x.2 + 4 ≤ s.length
  · rw [if_pos h]
    obtain ⟨v, hv⟩ := readHexAt?_eq_some (by omega) h hhex
    rw [hv]
    rfl
  · rw [if_neg h]
    rfl

lemma stepVoltage_isSome {s : List Char} (hhex : ∀ c ∈ s, isHexChar c = true)
    (x : AnalogResult × ℕ) : (stepVoltage s x).isSome = true := by
  unfold stepVoltage
  by_cases h : x.2 + 4 ≤ s.length
  · rw [if_pos h]
    obtain ⟨v, hv⟩ := readHexAt?_eq_some (by omega) h hhex
    rw [hv]
    rfl
  · rw [if_neg h]
    rfl

lemma stepRemain_isSome {s : List Char} (hhex : ∀ c ∈ s, isHexChar c = true)
    (x : AnalogResult × ℕ) : (stepRemain s x).isSome = true := by
  unfold stepRemain
  by_cases h : x.2 + 4 ≤ s.length
  · rw [if_pos h]
    obtain ⟨v, hv⟩ := readHexAt?_eq_some (by omega) h hhex
    rw [hv]
    rfl
  · rw [if_neg h]
    rfl

lemma stepTotal_isSome {s : List Char} (hhex : ∀ c ∈ s, isHexChar c = true)
    (x : AnalogResult × ℕ) : (stepTotal s x).isSome = true := by
  unfold stepTotal
  by_cases h : x.2 + 4 ≤ s.length
  · rw [if_pos h]
    obtain ⟨v, hv⟩ := readHexAt?_eq_some (by omega) h hhex
    rw [hv]
    rfl
  · rw [if_neg h]
    rfl

lemma stepCycles_isSome {s : List Char} (hhex : ∀ c ∈ s, isHexChar c = true)
    (x : AnalogResult × ℕ) : (stepCycles s x).isSome = true := by
  unfold stepCycles
  by_cases h : x.2 + 4 ≤ s.length
  · rw [if_pos h]
    obtain ⟨v, hv⟩ := readHexAt?_eq_some (by omega) h hhex
    rw [hv]
    rfl
  · rw [if_neg h]
    rfl

lemma analogAfterCells_isSome {s : List Char} (hhex : ∀ c ∈ s, isHexChar c = true)
    (i : ℕ) (r : AnalogResult) : (analogAfterCells s i r).isSome = true := by
  unfold analogAfterCells
  obtain ⟨x1, h1⟩ := Option.isSome_iff_exists.mp (stepTemps_isSome hhex (r, i))
  rw [h1]
  show ((stepCurrent s x1).bind _).isSome = true
  obtain ⟨x2, h2⟩ := Option.isSome_iff_exists.mp (stepCurrent_isSome hhex x1)
  rw [h2]
  show ((stepVoltage s x2).bind _).isSome = true
  obtain ⟨x3, h3⟩ := Option.isSome_iff_exists.mp (stepVoltage_isSome hhex x2)
  rw [h3]
  show ((stepRemain s x3).bind _).isSome = true
  obtain ⟨x4, h4⟩ := Option.isSome_iff_exists.mp (stepRemain_isSome hhex x3)
  rw [h4]
  show ((stepTotal s (stepUserByte s x4)).bind _).isSome = true
  obtain ⟨x5, h5⟩ :=
    Option.isSome_iff_exists.mp (stepTotal_isSome hhex (stepUserByte s x4))
  rw [h5]
  show ((stepCycles s x5).bind _).isSome = true
  obtain ⟨x6, h6⟩ := Option.isSome_iff_exists.mp (stepCycles_isSome hhex x5)
  rw [h6]
  rfl

/-- C6: `decode_analog_response` is total on truncated input — for every
string of hex digit characters (in particular every proper prefix of a
well-formed analog INFO body) it returns a result record without any
unguarded read; and when the cell-count byte is `"00"` it returns an
empty cell list and continues with the temperature-count read at the
immediately following position (index 6). -/
theorem c6_analog_decoder_total :
    (∀ s : List Char, (∀ c ∈ s, isHexChar c = true) →
      (decode_analog_response s).isSome = true) ∧
    (∀ s : List Char, 6 ≤ s.length → slice s 4 6 = ['0', '0'] →
      decode_analog_response s =
        analogAfterCells s 6 { header := slice s 0 4, cells := some [] }) := by
  constructor
  · intro s hhex
    unfold decode_analog_response
    by_cases h6 : 4 + 2 > s.length
    · rw [if_pos h6]
      rfl
    · rw [if_neg h6]
      obtain ⟨v, hv⟩ :=
        readHexAt?_eq_some (i := 4) (n := 2) (by omega) (by omega) hhex
      rw [hv]
      show ((readCells s v 6).bind _).isSome = true
      obtain ⟨⟨cells, i⟩, hrc⟩ :=
        Option.isSome_iff_exists.mp (readCells_isSome hhex v 6)
      rw [hrc]
      show (analogAfterCells s i _).isSome = true
      exact analogAfterCells_isSome hhex i _
  · intro s hlen hslice
    unfold decode_analog_response
    rw [if_neg (by omega)]
    have hv : readHexAt? s 4 2 = some 0 := by
      unfold readHexAt?
      rw [show (4 : ℕ) + 2 = 6 from rfl, hslice]
      decide
    rw [hv]
    rfl

/-- Witness for C6 on the concrete body `"10C0000002"`-prefix
`['1','0','C','0','0','0','0','2']`: header `10C0`, zero cells. -/
theorem c6_analog_decoder_total_witness :
    (∀ c ∈ (['1', '0', 'C', '0', '0', '0', '0', '2'] : List Char), isHexChar c = true) ∧
    (decode_analog_response ['1', '0', 'C', '0', '0', '0', '0', '2']).isSome = true ∧
    6 ≤ (['1', '0', 'C', '0', '0', '0', '0', '2'] : List Char).length ∧
    slice ['1', '0', 'C', '0', '0', '0', '0', '2'] 4 6 = ['0', '0'] ∧
    decode_analog_response ['1', '0', 'C', '0', '0', '0', '0', '2'] =
      analogAfterCells ['1', '0', 'C', '0', '0', '0', '0', '2'] 6
        { header := slice ['1', '0', 'C', '0', '0', '0', '0', '2'] 0 4,
          cells := some [] } :=
  ⟨by decide, c6_analog_decoder_total.1 _ (by decide), by decide, by decide,
   c6_analog_decoder_total.2 _ (by decide) (by decide)⟩

/-- C10: the `soc` computation never divides by zero: when the decoded
`total_ah` is absent or zero the guard short-circuits to 0, and
otherwise the divisor `data.get('total_ah', 1)` is the nonzero
`total_ah`, so the division is defined and
`soc = round(remain_ah / total_ah * 100, 1)`. -/
theorem c10_soc_division_guarded :
    ∀ data : AnalogResult,
      (batterySoc data).isSome = true ∧
      (pyTruthy data.total_ah = true →
        batterySoc data =
          some (round1 (data.remain_ah.getD 0 / data.total_ah.getD 1 * 100))) ∧
      (pyTruthy data.total_ah = false → batterySoc data = some 0) := by
  intro data
  have hkey : pyTruthy data.total_ah = true → data.total_ah.getD 1 ≠ 0 := by
    intro ht
    unfold pyTruthy at ht
    cases htot : data.total_ah with
    | none => rw [htot] at ht; simp at ht
    | some q =>
      rw [htot] at ht
      simp only [decide_eq_true_eq] at ht
      simpa using ht
  refine ⟨?_, ?_, ?_⟩
  · unfold batterySoc
    by_cases ht : pyTruthy data.total_ah
    · rw [if_pos ht]
      unfold pyDiv
      rw [if_neg (hkey ht)]
      rfl
    · rw [if_neg ht]
      rfl
  · intro ht
    unfold batterySoc
    rw [if_pos ht]
    unfold pyDiv
    rw [if_neg (hkey ht)]
    rfl
  · intro ht
    unfold batterySoc
    rw [if_neg (by rw [ht]; exact Bool.false_ne_true)]

/-- Witness for C10: one record with `total_ah = 100`, `remain_ah = 80`
and one record with `total_ah` absent. -/
theorem c10_soc_division_guarded_witness :
    (pyTruthy (AnalogResult.mk [] none none none none (some 80) (some 100) none).total_ah
        = true ∧
      batterySoc (AnalogResult.mk [] none none none none (some 80) (some 100) none) =
        some (round1 ((AnalogResult.mk [] none none none none (some 80) (some 100)
            none).remain_ah.getD 0 /
          (AnalogResult.mk [] none none none none (some 80) (some 100)
            none).total_ah.getD 1 * 100))) ∧
    (pyTruthy (AnalogResult.mk [] none none none none none none none).total_ah = false ∧
      batterySoc (AnalogResult.mk [] none none none none none none none) = some 0) :=
  ⟨⟨by norm_num [pyTruthy], (c10_soc_division_guarded _).2.1 (by norm_num [pyTruthy])⟩,
   ⟨rfl, (c10_soc_division_guarded _).2.2 rfl⟩⟩

lemma round1_tenths (n : ℕ) : round1 ((n : ℚ) / 10) = (n : ℚ) / 10 := by
  unfold round1
  rw [div_mul_cancel₀ _ (by norm_num : (10 : ℚ) ≠ 0), round_natCast]
  norm_num

/-- C8: the 0x351 handler publishes the four limit topics iff, after
dividing each little-endian 16-bit field by 10, both voltage fields lie
in [30, 65] and both current fields in [0, 500]; the all-zero post-reset
payload yields no publishes, and `E6 01 2C 01 2C 01 F4 01`
(48.6 V, 30 A, 30 A, 50 V) publishes all four. -/
theorem c8_limit_sanity_window :
    (∀ b0 b1 b2 b3 b4 b5 b6 b7 : ℕ,
      handle351 b0 b1 b2 b3 b4 b5 b6 b7 ≠ [] ↔
        (30 ≤ (le_u16 b0 b1 : ℚ) / 10 ∧ (le_u16 b0 b1 : ℚ) / 10 ≤ 65 ∧
          30 ≤ (le_u16 b6 b7 : ℚ) / 10 ∧ (le_u16 b6 b7 : ℚ) / 10 ≤ 65 ∧
          0 ≤ (le_u16 b2 b3 : ℚ) / 10 ∧ (le_u16 b2 b3 : ℚ) / 10 ≤ 500 ∧
          0 ≤ (le_u16 b4 b5 : ℚ) / 10 ∧ (le_u16 b4 b5 : ℚ) / 10 ≤ 500)) ∧
    (∀ b0 b1 b2 b3 b4 b5 b6 b7 : ℕ,
      handle351 b0 b1 b2 b3 b4 b5 b6 b7 ≠ [] →
      handle351 b0 b1 b2 b3 b4 b5 b6 b7 =
        [("limit/v_charge_max", (le_u16 b0 b1 : ℚ) / 10),
         ("limit/v_low", (le_u16 b6 b7 : ℚ) / 10),
         ("limit/i_charge", (le_u16 b2 b3 : ℚ) / 10),
         ("limit/i_discharge", (le_u16 b4 b5 : ℚ) / 10)]) ∧
    handle351 0 0 0 0 0 0 0 0 = [] ∧
    handle351 0xE6 0x01 0x2C 0x01 0x2C 0x01 0xF4 0x01 =
      [("limit/v_charge_max", 243 / 5), ("limit/v_low", 50),
       ("limit/i_charge", 30), ("limit/i_discharge", 30)] := by
  have hiff : ∀ b0 b1 b2 b3 b4 b5 b6 b7 : ℕ,
      handle351 b0 b1 b2 b3 b4 b5 b6 b7 ≠ [] ↔
        (30 ≤ (le_u16 b0 b1 : ℚ) / 10 ∧ (le_u16 b0 b1 : ℚ) / 10 ≤ 65 ∧
          30 ≤ (le_u16 b6 b7 : ℚ) / 10 ∧ (le_u16 b6 b7 : ℚ) / 10 ≤ 65 ∧
          0 ≤ (le_u16 b2 b3 : ℚ) / 10 ∧ (le_u16 b2 b3 : ℚ) / 10 ≤ 500 ∧
          0 ≤ (le_u16 b4 b5 : ℚ) / 10 ∧ (le_u16 b4 b5 : ℚ) / 10 ≤ 500) := by
    intro b0 b1 b2 b3 b4 b5 b6 b7
    unfold handle351
    dsimp only
    split_ifs <;>
      simp only [ne_eq, not_true_eq_false, false_iff, List.cons_ne_nil,
        not_false_eq_true, true_iff] <;>
      tauto
  refine ⟨hiff, ?_, ?_, ?_⟩
  · intro b0 b1 b2 b3 b4 b5 b6 b7 hne
    have hw := (hiff b0 b1 b2 b3 b4 b5 b6 b7).mp hne
    unfold handle351
    dsimp only
    rw [if_neg (by tauto), if_neg (by tauto), if_neg (by tauto), if_neg (by tauto)]
    rw [round1_tenths, round1_tenths, round1_tenths, round1_tenths]
  · have h0 : le_u16 0 0 = 0 := by decide
    unfold handle351
    rw [if_pos]
    rw [h0]
    norm_num
  · have ha : le_u16 0xE6 0x01 = 486 := by decide
    have hb : le_u16 0x2C 0x01 = 300 := by decide
    have hc : le_u16 0xF4 0x01 = 500 := by decide
    unfold handle351
    dsimp only
    rw [ha, hb, hc]
    rw [if_neg (by norm_num), if_neg (by norm_num), if_neg (by norm_num),
      if_neg (by norm_num)]
    simp only [round1_tenths]
    norm_num

/-- Witness for C8 at the in-window frame `E6 01 2C 01 2C 01 F4 01`. -/
theorem c8_limit_sanity_window_witness :
    handle351 0xE6 0x01 0x2C 0x01 0x2C 0x01 0xF4 0x01 ≠ [] ∧
    handle351 0xE6 0x01 0x2C 0x01 0x2C 0x01 0xF4 0x01 =
      [("limit/v_charge_max", (le_u16 0xE6 0x01 : ℚ) / 10),
       ("limit/v_low", (le_u16 0xF4 0x01 : ℚ) / 10),
       ("limit/i_charge", (le_u16 0x2C 0x01 : ℚ) / 10),
       ("limit/i_discharge", (le_u16 0x2C 0x01 : ℚ) / 10)] := by
  have hw : 30 ≤ (le_u16 0xE6 0x01 : ℚ) / 10 ∧ (le_u16 0xE6 0x01 : ℚ) / 10 ≤ 65 ∧
      30 ≤ (le_u16 0xF4 0x01 : ℚ) / 10 ∧ (le_u16 0xF4 0x01 : ℚ) / 10 ≤ 65 ∧
      0 ≤ (le_u16 0x2C 0x01 : ℚ) / 10 ∧ (le_u16 0x2C 0x01 : ℚ) / 10 ≤ 500 ∧
      0 ≤ (le_u16 0x2C 0x01 : ℚ) / 10 ∧ (le_u16 0x2C 0x01 : ℚ) / 10 ≤ 500 := by
    norm_num [show le_u16 0xE6 0x01 = 486 from by decide,
      show le_u16 0x2C 0x01 = 300 from by decide,
      show le_u16 0xF4 0x01 = 500 from by decide]
  have hne := (c8_limit_sanity_window.1 0xE6 0x01 0x2C 0x01 0x2C 0x01 0xF4 0x01).mpr hw
  exact ⟨hne, c8_limit_sanity_window.2.1 0xE6 0x01 0x2C 0x01 0x2C 0x01 0xF4 0x01 hne⟩

/-- C9: `read_register` decodes a uint32 register as
`regs[0] | (regs[1] << 16)` (low word first) with no sign adjustment —
never negative, and `[0xFFFF, 0]` decodes to 65535; an int32 register
additionally subtracts 2^32 above 0x7FFFFFFF; an int16 register
subtracts 2^16 above 0x7FFF; and the returned value is
`round(raw * scale + offset, 3)`. -/
theorem c9_register_decoding :
    (∀ regs r, rawOf .uint32 regs = some r → 0 ≤ r) ∧
    rawOf .uint32 [0xFFFF, 0] = some 65535 ∧
    rawOf .uint32 [0, 1] = some 65536 ∧
    rawOf .int32 [0xFFFF, 0xFFFF] = some (-1) ∧
    rawOf .int32 [0xFFFF, 0x7FFF] = some 0x7FFFFFFF ∧
    rawOf .int16 [0xFFFF] = some (-1) ∧
    rawOf .int16 [0x7FFF] = some 0x7FFF ∧
    rawOf .uint16 [0xFFFF] = some 65535 ∧
    (∀ t regs scale offset raw, rawOf t regs = some raw →
      read_register t false regs scale offset =
        some (round3 ((raw : ℚ) * scale + offset))) ∧
    (∀ t regs scale offset, read_register t true regs scale offset = none) := by
  refine ⟨?_, by decide, by decide, by decide, by decide, by decide, by decide,
    by decide, ?_, ?_⟩
  · intro regs r h
    unfold rawOf at h
    cases h0 : regs.get? 0 with
    | none => rw [h0] at h; simp at h
    | some r0 =>
      rw [h0] at h
      cases h1 : regs.get? 1 with
      | none => rw [h1] at h; simp at h
      | some r1 =>
        rw [h1] at h
        simp only [Option.some_bind] at h
        have : r = ((r0 ||| (r1 <<< 16) : ℕ) : ℤ) := by
          cases h
          rfl
        rw [this]
        exact Int.natCast_nonneg _
  · intro t regs scale offset raw h
    unfold read_register
    rw [if_neg (by simp), h]
    rfl
  · intro t regs scale offset
    unfold read_register
    rw [if_pos rfl]

/-- Witness for C9 at a concrete uint32 read with scale 1, offset 0. -/
theorem c9_register_decoding_witness :
    rawOf .uint32 [0xFFFF, 0] = some 65535 ∧
    (0 : ℤ) ≤ 65535 ∧
    read_register .uint32 false [0xFFFF, 0] 1 0 =
      some (round3 (((65535 : ℤ) : ℚ) * 1 + 0)) :=
  ⟨by decide, c9_register_decoding.1 [0xFFFF, 0] 65535 (by decide),
   c9_register_decoding.2.2.2.2.2.2.2.2.1 .uint32 [0xFFFF, 0] 1 0 65535 (by decide)⟩

lemma chargeCurrentProt_subset (cc : ℕ) : chargeCurrentProt cc ⊆ protNames := by
  unfold chargeCurrentProt
  split_ifs <;> decide

lemma moduleVoltageProt_subset (mv : ℕ) : moduleVoltageProt mv ⊆ protNames := by
  unfold moduleVoltageProt
  split_ifs <;> decide

lemma voltageStatusProts_subset (v : ℕ) : voltageStatusProts v ⊆ protNames := by
  unfold voltageStatusProts
  split_ifs <;> decide

lemma voltageStatusWarnings_subset (v : ℕ) : voltageStatusWarnings v ⊆ warnNames := by
  unfold voltageStatusWarnings
  split_ifs <;> decide

lemma bind_step {α β : Type} {x : Option α} {f : α → Option β} {b : β}
    (h : (x >>= f) = some b) : ∃ a, x = some a ∧ f a = some b := by
  cases x with
  | none => exact absurd h (by simp)
  | some a => exact ⟨a, rfl, h⟩

lemma step_cases {cond : Prop} [Decidable cond] {x : Option ℕ}
    {g : ℕ → AlarmResult} {r r2 : AlarmResult}
    (h : (if cond then x.bind (fun v => some (g v)) else some r) = some r2) :
    r2 = r ∨ ∃ v, r2 = g v := by
  split at h
  · cases x with
    | none => exact absurd h (by simp)
    | some v =>
      right
      refine ⟨v, ?_⟩
      simpa using h.symm
  · left
    exact (Option.some.inj h).symm

lemma step_cases2 {cond : Prop} [Decidable cond] {x y : Option ℕ}
    {g : ℕ → ℕ → AlarmResult} {r r2 : AlarmResult}
    (h : (if cond then x.bind (fun a => y.bind (fun b => some (g a b)))
        else some r) = some r2) :
    r2 = r ∨ ∃ a b, r2 = g a b := by
  split at h
  · cases x with
    | none => exact absurd h (by simp)
    | some a =>
      cases y with
      | none => exact absurd h (by simp)
      | some b =>
        right
        refine ⟨a, b, ?_⟩
        simpa using h.symm
  · left
    exact (Option.some.inj h).symm

/-- Through the status-byte section, `protections` only grows by names
from `protNames`, `warnings` only by names from `warnNames`, and the
final line copies `protections` into `alarms`. -/
lemma alarmStatusBlock_spec {s : List Char} {status_pos : ℕ} {r r2 : AlarmResult}
    (hp : r.protections ⊆ protNames) (hw : r.warnings ⊆ warnNames)
    (h : alarmStatusBlock s status_pos r = some r2) :
    r2.alarms = r2.protections ∧ r2.protections ⊆ protNames ∧
      r2.warnings ⊆ warnNames := by
  unfold alarmStatusBlock at h
  obtain ⟨r1, h1, h⟩ := bind_step h
  obtain ⟨rB, h2, h⟩ := bind_step h
  obtain ⟨rC, h3, h⟩ := bind_step h
  obtain ⟨rD, h4, h⟩ := bind_step h
  obtain ⟨rE, h5, h⟩ := bind_step h
  obtain ⟨rF, h6, h⟩ := bind_step h
  obtain ⟨rG, h7, h⟩ := bind_step h
  obtain ⟨rH, h8, h⟩ := bind_step h
  have P1 : r1.protections ⊆ protNames ∧ r1.warnings ⊆ warnNames := by
    rcases step_cases h1 with heq | ⟨cc, heq⟩ <;> subst heq
    · exact ⟨hp, hw⟩
    · exact ⟨List.append_subset.mpr ⟨hp, chargeCurrentProt_subset cc⟩, hw⟩
  have P2 : rB.protections ⊆ protNames ∧ rB.warnings ⊆ warnNames := by
    rcases step_cases h2 with heq | ⟨mv, heq⟩ <;> subst heq
    · exact P1
    · exact ⟨List.append_subset.mpr ⟨P1.1, moduleVoltageProt_subset mv⟩, P1.2⟩
  have P3 : rC.protections ⊆ protNames ∧ rC.warnings ⊆ warnNames := by
    rcases step_cases h3 with heq | ⟨bs, heq⟩ <;> subst heq
    · exact P2
    · exact P2
  have P4 : rD.protections ⊆ protNames ∧ rD.warnings ⊆ warnNames := by
    rcases step_cases h4 with heq | ⟨v, heq⟩ <;> subst heq
    · exact P3
    · exact ⟨List.append_subset.mpr ⟨P3.1, voltageStatusProts_subset v⟩,
        List.append_subset.mpr ⟨P3.2, voltageStatusWarnings_subset v⟩⟩
  have P5 : rE.protections ⊆ protNames ∧ rE.warnings ⊆ warnNames := by
    rcases step_cases h5 with heq | ⟨m, heq⟩ <;> subst heq
    · exact P4
    · exact P4
  have P6 : rF.protections ⊆ protNames ∧ rF.warnings ⊆ warnNames := by
    rcases step_cases2 h6 with heq | ⟨b18, b916, heq⟩ <;> subst heq
    · exact P5
    · exact P5
  have P7 : rG.protections ⊆ protNames ∧ rG.warnings ⊆ warnNames := by
    rcases step_cases2 h7 with heq | ⟨cw1, cw2, heq⟩ <;> subst heq
    · exact P6
    · exact P6
  have P8 : rH.protections ⊆ protNames ∧ rH.warnings ⊆ warnNames := by
    rcases step_cases h8 with heq | ⟨lastb, heq⟩ <;> subst heq
    · exact P7
    · exact P7
  have hr2 : r2 = { rH with alarms := rH.protections } := (Option.some.inj h).symm
  subst hr2
  exact ⟨rfl, P8.1, P8.2⟩

/-- C7: for every input, the record returned by `decode_alarm_response`
has its `alarms` list element-for-element equal to `protections` (a
copy), and no element of `warnings` ever appears in `alarms` — warnings
are never surfaced as alarms. -/
theorem c7_alarm_severity_disjoint :
    ∀ (s : List Char) (r : AlarmResult), decode_alarm_response s = some r →
      r.alarms = r.protections ∧ ∀ w ∈ r.warnings, w ∉ r.alarms := by
  have hdisj : ∀ x ∈ warnNames, x ∉ protNames := by decide
  intro s r h
  unfold decode_alarm_response at h
  split at h
  · have hr : r = {} := (Option.some.inj h).symm
    subst hr
    exact ⟨rfl, by simp⟩
  · obtain ⟨info_flag, hA, h⟩ := bind_step h
    obtain ⟨battery_num, hB, h⟩ := bind_step h
    obtain ⟨num_cells, hC, h⟩ := bind_step h
    obtain ⟨p, hD, h⟩ := bind_step h
    obtain ⟨uv, ov⟩ := p
    dsimp only at h
    split at h
    · obtain ⟨num_temps, hE, h⟩ := bind_step h
      obtain ⟨q, hF, h⟩ := bind_step h
      obtain ⟨ut, ot⟩ := q
      have hspec := alarmStatusBlock_spec (by exact List.nil_subset _)
        (by exact List.nil_subset _) h
      refine ⟨hspec.1, ?_⟩
      intro w hw hcon
      rw [hspec.1] at hcon
      exact hdisj w (hspec.2.2 hw) (hspec.2.1 hcon)
    · have hr : r = _ := (Option.some.inj h).symm
      subst hr
      exact ⟨rfl, by simp⟩

/-- Witness for C7 on `c7Input`. -/
theorem c7_alarm_severity_disjoint_witness :
    decode_alarm_response c7Input = some ((decode_alarm_response c7Input).getD {}) ∧
    ((decode_alarm_response c7Input).getD {}).alarms =
      ((decode_alarm_response c7Input).getD {}).protections ∧
    "cell_overvolt_alarm" ∈ ((decode_alarm_response c7Input).getD {}).warnings ∧
    "cell_overvolt_alarm" ∉ ((decode_alarm_response c7Input).getD {}).alarms :=
  ⟨by decide,
   (c7_alarm_severity_disjoint c7Input ((decode_alarm_response c7Input).getD {})
     (by decide)).1,
   by decide,
   (c7_alarm_severity_disjoint c7Input ((decode_alarm_response c7Input).getD {})
     (by decide)).2 "cell_overvolt_alarm" (by decide)⟩
